import Mathlib

/-!
Verification of the IdleGameEngine runtime (src/idleengine) against its
natural-language specification.  The Python sources are shallowly embedded:
Python floats become `Rat` (exact arithmetic), Python dicts become
association lists with dict semantics (insertion preserves the position of
an existing key; lookup finds the first matching entry, which is the unique
one because states are built by repeated insertion), Python callables that
read game state become Lean functions `GameState → _`, and user-supplied
mutating callbacks (`on_purchase`, `on_trigger`, subsystems) become optional
state transformers `GameState → GameState`.
-/

namespace IdleEngine

attribute [local semireducible] Rat.add Rat.sub Rat.mul Rat.inv Rat.ofScientific

/-! ## Dictionary helpers (Python `dict` on string keys) -/

def dictGet {α : Type} (m : List (String × α)) (k : String) : Option α :=
  (m.find? (fun p => p.1 == k)).map (fun p => p.2)

def dictInsert {α : Type} (m : List (String × α)) (k : String) (v : α) :
    List (String × α) :=
  if m.any (fun p => p.1 == k) then
    m.map (fun p => if p.1 == k then (k, v) else p)
  else
    m ++ [(k, v)]

def updateKey {α : Type} (m : List (String × α)) (k : String) (f : α → α) :
    List (String × α) :=
  m.map (fun p => if p.1 == k then (p.1, f p.2) else p)

/-- Total amount associated with key `k` in a cost map (0 when absent). -/
def sumFor : List (String × Rat) → String → Rat
  | [], _ => 0
  | p :: rest, k => (if p.1 = k then p.2 else 0) + sumFor rest k

/-! ## Comparison operators (src/idleengine/_types.py) -/

inductive CmpOp where
  | ge | le | gt | lt | eq | ne
deriving DecidableEq, Repr

def cmpRat (left : Rat) (op : CmpOp) (right : Rat) : Bool :=
  match op with
  | .ge => decide (left ≥ right)
  | .le => decide (left ≤ right)
  | .gt => decide (left > right)
  | .lt => decide (left < right)
  | .eq => decide (left = right)
  | .ne => decide (left ≠ right)

def cmpInt (left : Int) (op : CmpOp) (right : Int) : Bool :=
  match op with
  | .ge => decide (left ≥ right)
  | .le => decide (left ≤ right)
  | .gt => decide (left > right)
  | .lt => decide (left < right)
  | .eq => decide (left = right)
  | .ne => decide (left ≠ right)

/-! ## Mutable state (src/idleengine/currency.py, element.py, state.py) -/

structure CurrencyState where
  current : Rat := 0
  total_earned : Rat := 0
  current_rate : Rat := 0
deriving DecidableEq, Repr

structure ElementState where
  count : Int := 0
  available : Bool := false
  affordable : Bool := false
  unlocked : Bool := false
deriving DecidableEq, Repr

structure GameState where
  time_elapsed : Rat := 0
  currencies : List (String × CurrencyState) := []
  elements : List (String × ElementState) := []
  milestones_reached : List (String × Rat) := []
  prestige_counts : List (String × Int) := []
  run_number : Int := 1
deriving DecidableEq, Repr

def GameState.currency_value (s : GameState) (id : String) : Rat :=
  match dictGet s.currencies id with
  | some cs => cs.current
  | none => 0

def GameState.currency_rate (s : GameState) (id : String) : Rat :=
  match dictGet s.currencies id with
  | some cs => cs.current_rate
  | none => 0

def GameState.element_count (s : GameState) (id : String) : Int :=
  match dictGet s.elements id with
  | some es => es.count
  | none => 0

def GameState.has_milestone (s : GameState) (id : String) : Bool :=
  s.milestones_reached.any (fun p => p.1 == id)

def GameState.total_earned_of (s : GameState) (id : String) : Rat :=
  match dictGet s.currencies id with
  | some cs => cs.total_earned
  | none => 0

def GameState.updateCurrency (s : GameState) (id : String)
    (f : CurrencyState → CurrencyState) : GameState :=
  { s with currencies := updateKey s.currencies id f }

def GameState.updateElement (s : GameState) (id : String)
    (f : ElementState → ElementState) : GameState :=
  { s with elements := updateKey s.elements id f }

/-! ## Requirements (src/idleengine/requirement.py) -/

inductive Requirement where
  | resource (currencyId : String) (op : CmpOp) (threshold : Rat)
  | totalEarned (currencyId : String) (op : CmpOp) (threshold : Rat)
  | owns (elementId : String)
  | countReq (elementId : String) (op : CmpOp) (threshold : Int)
  | milestone (milestoneId : String)
  | time (op : CmpOp) (seconds : Rat)
  | all (reqs : List Requirement)
  | any (reqs : List Requirement)
  | custom (fn : GameState → Bool)

def Requirement.evaluate : Requirement → GameState → Bool
  | .resource cid op th, s => cmpRat (s.currency_value cid) op th
  | .totalEarned cid op th, s => cmpRat (s.total_earned_of cid) op th
  | .owns eid, s => decide (s.element_count eid ≥ 1)
  | .countReq eid op th, s => cmpInt (s.element_count eid) op th
  | .milestone mid, s => s.has_milestone mid
  | .time op secs, s => cmpRat s.time_elapsed op secs
  | .all reqs, s => reqs.attach.all (fun ⟨r, _⟩ => r.evaluate s)
  | .any reqs, s => reqs.attach.any (fun ⟨r, _⟩ => r.evaluate s)
  | .custom f, s => f s
termination_by r _ => sizeOf r
decreasing_by
  all_goals simp_wf
  all_goals rename_i h
  all_goals have hm := List.sizeOf_lt_of_mem h
  all_goals omega

/-! ## Dynamic values (src/idleengine/_types.py DynamicFloat) -/

inductive DynVal where
  | lit (v : Rat)
  | fn (f : GameState → Rat)

def DynVal.resolve : DynVal → GameState → Rat
  | .lit v, _ => v
  | .fn f, s => f s

/-! ## Effects (src/idleengine/effect.py) -/

inductive EffectType where
  | PRODUCTION_FLAT
  | PRODUCTION_ADD_PCT
  | PRODUCTION_MULT
  | GLOBAL_MULT
  | CLICK_FLAT
  | CLICK_MULT
  | COST_MULT
  | CAP_FLAT
  | CAP_MULT
  | AUTO_CLICK
  | GRANT
  | UNLOCK
  | CUSTOM
deriving DecidableEq, Repr

inductive EffectPhase where
  | BASE
  | BONUS_ADD
  | BONUS_MULT
  | GLOBAL
  | CLICK
  | COST
  | CAP
  | AUTO
  | IMMEDIATE
  | CUSTOM
deriving DecidableEq, Repr

def DEFAULT_PHASE : EffectType → EffectPhase
  | .PRODUCTION_FLAT => .BASE
  | .PRODUCTION_ADD_PCT => .BONUS_ADD
  | .PRODUCTION_MULT => .BONUS_MULT
  | .GLOBAL_MULT => .GLOBAL
  | .CLICK_FLAT => .CLICK
  | .CLICK_MULT => .CLICK
  | .COST_MULT => .COST
  | .CAP_FLAT => .CAP
  | .CAP_MULT => .CAP
  | .AUTO_CLICK => .AUTO
  | .GRANT => .IMMEDIATE
  | .UNLOCK => .IMMEDIATE
  | .CUSTOM => .CUSTOM

structure EffectDef where
  type : EffectType
  target : String
  value : DynVal := .lit 0
  condition : Option Requirement := none
  phase : EffectPhase
  created_by : Option String := none

/-- Mirrors `EffectDef.__post_init__`: an unspecified phase defaults to the
canonical phase of the effect type. -/
def EffectDef.make (type : EffectType) (target : String) (value : DynVal)
    (condition : Option Requirement) (phase : Option EffectPhase) : EffectDef :=
  { type := type, target := target, value := value, condition := condition,
    phase := phase.getD (DEFAULT_PHASE type) }

def EffectDef.resolve (eff : EffectDef) (s : GameState) : Rat :=
  eff.value.resolve s

def EffectDef.is_active (eff : EffectDef) (s : GameState) : Bool :=
  match eff.condition with
  | none => true
  | some r => r.evaluate s

/-- Mirrors `Effect.per_count`: value scales with the owned count of
`element`.  Note that the Python constructor does not set any marker
attribute on the returned `EffectDef` (no `_created_by`, no
`_per_unit_value`), which is why `created_by` stays `none` here. -/
def Effect.per_count (element : String) (type : EffectType) (target : String)
    (per_unit : Rat) (condition : Option Requirement := none) : EffectDef :=
  EffectDef.make type target
    (.fn (fun s => (s.element_count element : Rat) * per_unit)) condition none

/-- Mirrors `Effect.static`: constant value effect. -/
def Effect.static (type : EffectType) (target : String) (value : Rat)
    (condition : Option Requirement := none) : EffectDef :=
  EffectDef.make type target (.lit value) condition none

/-- Mirrors `Effect.synergy`: value scales with the count of `source`. -/
def Effect.synergy (source : String) (type : EffectType) (target : String)
    (per_unit : Rat) (condition : Option Requirement := none) : EffectDef :=
  EffectDef.make type target
    (.fn (fun s => (s.element_count source : Rat) * per_unit)) condition none

/-! ## Cost scaling (src/idleengine/cost_scaling.py) -/

structure CostScaling where
  fn : List (String × Rat) → Int → List (String × Rat)

def CostScaling.compute (cs : CostScaling) (base_cost : List (String × Rat))
    (current_count : Int) : List (String × Rat) :=
  cs.fn base_cost current_count

def CostScaling.fixed : CostScaling :=
  ⟨fun base _count => base⟩

def CostScaling.exponential (growth_rate : Rat := 23 / 20) : CostScaling :=
  ⟨fun base count => base.map (fun p => (p.1, p.2 * growth_rate ^ count))⟩

def CostScaling.linear (increment_pct : Rat := 1 / 10) : CostScaling :=
  ⟨fun base count => base.map (fun p => (p.1, p.2 * (1 + increment_pct * count)))⟩

def CostScaling.custom
    (fn : List (String × Rat) → Int → List (String × Rat)) : CostScaling :=
  ⟨fn⟩

/-! ## Static definitions (currency.py, element.py, milestone.py, prestige.py,
definition.py) -/

structure CurrencyDef where
  id : String
  initial_value : Rat := 0
  cap : Option DynVal := none
  persistent : Bool := false

structure ElementDef where
  id : String
  base_cost : List (String × Rat) := []
  cost_scaling : CostScaling := CostScaling.fixed
  max_count : Option Int := none
  effects : List EffectDef := []
  requirements : List Requirement := []
  purchase_requirements : List Requirement := []
  on_purchase : Option (GameState → GameState) := none
  tags : List String := []
  category : String := ""

structure MilestoneDef where
  id : String
  trigger : Option Requirement := none
  on_trigger : Option (GameState → GameState) := none

/-- Mirrors the Python field type `list[str] | str` of the reset lists. -/
inductive ResetSpec where
  | str (s : String)
  | ids (l : List String)

structure PrestigeLayerDef where
  id : String
  prestige_currency : String := ""
  reward_formula : Option (GameState → Rat) := none
  currencies_reset : ResetSpec := .ids []
  elements_reset : ResetSpec := .ids []
  requirements : List Requirement := []
  minimum_reward : Rat := 0

structure PrestigeResult where
  success : Bool
  reward_amount : Rat := 0
  currencies_reset : List String := []
  elements_reset : List String := []
  reason : String := ""
deriving DecidableEq, Repr

structure ClickTarget where
  currency : String := ""
  base_value : Rat := 1

structure GameDefinition where
  currencies : List CurrencyDef := []
  elements : List ElementDef := []
  milestones : List MilestoneDef := []
  prestige_layers : List PrestigeLayerDef := []
  click_targets : List ClickTarget := []

/-- The id → definition lookup dicts built in `GameDefinition.__post_init__`
(dict comprehension: later duplicates override earlier entries). -/
def byId {α : Type} (get_id : α → String) (l : List α) : List (String × α) :=
  l.foldl (fun m a => dictInsert m (get_id a) a) []

def GameDefinition.get_currency (d : GameDefinition) (id : String) :
    Option CurrencyDef :=
  dictGet (byId CurrencyDef.id d.currencies) id

def GameDefinition.get_element (d : GameDefinition) (id : String) :
    Option ElementDef :=
  dictGet (byId ElementDef.id d.elements) id

def GameDefinition.get_milestone (d : GameDefinition) (id : String) :
    Option MilestoneDef :=
  dictGet (byId MilestoneDef.id d.milestones) id

def GameDefinition.get_prestige_layer (d : GameDefinition) (id : String) :
    Option PrestigeLayerDef :=
  dictGet (byId PrestigeLayerDef.id d.prestige_layers) id

def GameDefinition.get_click_target (d : GameDefinition) (currency : String) :
    Option ClickTarget :=
  dictGet (byId ClickTarget.currency d.click_targets) currency

/-- Mirrors the per-count-with-multiplicative-type warning pass at the end of
`GameDefinition.validate` (definition.py lines 161-182).  The Python code
emits one `warnings.warn` per offending effect; this function returns the
(element id, effect type) pairs for which a warning is emitted.  The guard is
`getattr(eff, "_created_by", None) == "per_count"`, hence the `created_by`
field comparison. -/
def GameDefinition.per_count_mult_warnings (d : GameDefinition) :
    List (String × EffectType) :=
  d.elements.foldl (fun acc e =>
    e.effects.foldl (fun acc eff =>
      if eff.created_by == some "per_count" &&
          (eff.type == EffectType.PRODUCTION_MULT ||
           eff.type == EffectType.GLOBAL_MULT) then
        acc ++ [(e.id, eff.type)]
      else acc) acc) []

/-! ## State construction (src/idleengine/state.py `GameState.__init__`) -/

def GameState.init (d : GameDefinition) : GameState :=
  { time_elapsed := 0
    currencies := d.currencies.foldl (fun m cdef =>
      dictInsert m cdef.id
        { current := cdef.initial_value, total_earned := cdef.initial_value }) []
    elements := d.elements.foldl (fun m edef => dictInsert m edef.id {}) []
    milestones_reached := []
    prestige_counts := d.prestige_layers.foldl (fun m p =>
      dictInsert m p.id 0) []
    run_number := 1 }

/-! ## Production pipeline (src/idleengine/pipeline.py) -/

/-- A custom per-currency pipeline function. -/
def PipelineFn : Type :=
  String → List (EffectType × Rat) → GameState → Rat

def compute_rate (custom : List (String × PipelineFn)) (currency_id : String)
    (effects : List (EffectType × Rat)) (s : GameState) : Rat :=
  match dictGet custom currency_id with
  | some f => f currency_id effects s
  | none =>
    let acc := effects.foldl
      (fun (a : Rat × Rat × Rat × Rat) p =>
        match p.1 with
        | .PRODUCTION_FLAT => (a.1 + p.2, a.2.1, a.2.2.1, a.2.2.2)
        | .PRODUCTION_ADD_PCT => (a.1, a.2.1 + p.2, a.2.2.1, a.2.2.2)
        | .PRODUCTION_MULT => (a.1, a.2.1, a.2.2.1 * p.2, a.2.2.2)
        | .GLOBAL_MULT => (a.1, a.2.1, a.2.2.1, a.2.2.2 * p.2)
        | _ => a)
      (0, 0, 1, 1)
    acc.1 * (1 + acc.2.1) * acc.2.2.1 * acc.2.2.2

def compute_click_value (_currency_id : String) (base_value : Rat)
    (effects : List (EffectType × Rat)) (_s : GameState) : Rat :=
  let acc := effects.foldl
    (fun (a : Rat × Rat) p =>
      match p.1 with
      | .CLICK_FLAT => (a.1 + p.2, a.2)
      | .CLICK_MULT => (a.1, a.2 * p.2)
      | _ => a)
    (base_value, 1)
  acc.1 * acc.2

/-! ## Game runtime (src/idleengine/runtime.py)

The `GameRuntime` object carries the static definition, the owned state, the
dirty-rates flag, the pipeline's custom-function registry and the registered
subsystems (state transformers ticked last).  Each Python method that
mutates `self.state` becomes a function `Runtime → ... → Runtime` (paired
with its return value where the method returns one). -/

structure Runtime where
  definition : GameDefinition
  state : GameState
  dirty : Bool := true
  customPipelines : List (String × PipelineFn) := []
  subsystems : List (GameState → Rat → GameState) := []

/-- Mirrors `GameRuntime._apply_cost_effects`: product of all active
COST_MULT effects targeting `element_id`, from elements with count > 0. -/
def apply_cost_effects (d : GameDefinition) (s : GameState)
    (element_id : String) (cost : List (String × Rat)) : List (String × Rat) :=
  let total_mult := d.elements.foldl (fun m edef =>
    if s.element_count edef.id ≤ 0 then m
    else edef.effects.foldl (fun m eff =>
      if eff.type == EffectType.COST_MULT && eff.target == element_id &&
          eff.is_active s then
        m * eff.resolve s
      else m) m) 1
  if total_mult ≠ 1 then cost.map (fun p => (p.1, p.2 * total_mult)) else cost

/-- Mirrors `GameRuntime._resolve_cap`: base cap plus CAP_FLAT effects, times
product of CAP_MULT effects. -/
def resolve_cap (d : GameDefinition) (s : GameState) (currency_id : String) :
    Option Rat :=
  match d.get_currency currency_id with
  | none => none
  | some cdef =>
    match cdef.cap with
    | none => none
    | some dv =>
      let base_cap := dv.resolve s
      let acc := d.elements.foldl (fun (a : Rat × Rat) edef =>
        if s.element_count edef.id ≤ 0 then a
        else edef.effects.foldl (fun a eff =>
          if eff.target != currency_id then a
          else if !eff.is_active s then a
          else if eff.type == EffectType.CAP_FLAT then (a.1 + eff.resolve s, a.2)
          else if eff.type == EffectType.CAP_MULT then (a.1, a.2 * eff.resolve s)
          else a) a) (0, 1)
      some ((base_cap + acc.1) * acc.2)

/-- Mirrors `GameRuntime._apply_immediate_effect` (GRANT or UNLOCK). -/
def apply_immediate_effect (s : GameState) (eff : EffectDef) : GameState :=
  if eff.type == EffectType.GRANT then
    match dictGet s.currencies eff.target with
    | none => s
    | some _ =>
      let amount := eff.resolve s
      s.updateCurrency eff.target (fun cs =>
        { cs with current := cs.current + amount,
                  total_earned := if amount > 0 then cs.total_earned + amount
                                  else cs.total_earned })
  else if eff.type == EffectType.UNLOCK then
    match dictGet s.elements eff.target with
    | none => s
    | some _ =>
      s.updateElement eff.target (fun es =>
        { es with unlocked := true, available := true })
  else s

/-- Mirrors `GameRuntime._update_element_statuses`: sequentially updates each
element's `available` then `affordable` flag against the live state. -/
def update_element_statuses (d : GameDefinition) (s0 : GameState) : GameState :=
  d.elements.foldl (fun s edef =>
    match dictGet s.elements edef.id with
    | none => s
    | some es =>
      let avail : Bool :=
        if es.unlocked then true
        else edef.requirements.all (fun r => r.evaluate s)
      let s := s.updateElement edef.id (fun e => { e with available := avail })
      let afford : Bool :=
        if avail &&
            (match edef.max_count with
             | none => true
             | some m => decide (es.count < m)) then
          let cost := apply_cost_effects d s edef.id
            (edef.cost_scaling.compute edef.base_cost es.count)
          cost.all (fun p => decide (s.currency_value p.1 ≥ p.2))
        else false
      s.updateElement edef.id (fun e => { e with affordable := afford })) s0

/-- Mirrors `GameRuntime._check_milestones`: fires milestones whose triggers
are now met, skipping already-reached ids, then runs `on_trigger`. -/
def check_milestones (d : GameDefinition) (s0 : GameState) : GameState :=
  d.milestones.foldl (fun s mdef =>
    if s.has_milestone mdef.id then s
    else
      match mdef.trigger with
      | none => s
      | some t =>
        if t.evaluate s then
          let s := { s with milestones_reached :=
                      (dictInsert s.milestones_reached mdef.id s.time_elapsed) }
          match mdef.on_trigger with
          | some f => f s
          | none => s
        else s) s0

/-- Mirrors `GameRuntime._process_auto_clicks`: AUTO_CLICK effects add
`clicks_per_sec * delta * click_target.base_value` directly to balance and
total_earned, bypassing the click pipeline and cap clamping. -/
def process_auto_clicks (d : GameDefinition) (s0 : GameState) (delta : Rat) :
    GameState :=
  d.elements.foldl (fun s edef =>
    if s.element_count edef.id ≤ 0 then s
    else edef.effects.foldl (fun s eff =>
      if eff.type != EffectType.AUTO_CLICK then s
      else if !eff.is_active s then s
      else
        let clicks_per_sec := eff.resolve s
        let total_clicks := clicks_per_sec * delta
        match d.get_click_target eff.target with
        | none => s
        | some ct =>
          let value := ct.base_value * total_clicks
          match dictGet s.currencies eff.target with
          | none => s
          | some _ =>
            s.updateCurrency eff.target (fun cs =>
              { cs with current := cs.current + value,
                        total_earned := cs.total_earned + value })) s) s0

/-- Mirrors `GameRuntime._recompute_rates`: gathers active, phase-eligible
effects once (COST and IMMEDIATE phases excluded), routing GLOBAL_MULT
effects to every currency, then recomputes each currency's rate in
definition order against the live state. -/
def collect_active_effects (d : GameDefinition) (s : GameState) :
    List (EffectType × Rat) × List (String × List (EffectType × Rat)) :=
  d.elements.foldl (fun acc edef =>
    if s.element_count edef.id ≤ 0 then acc
    else edef.effects.foldl (fun acc eff =>
      if eff.phase == EffectPhase.IMMEDIATE || eff.phase == EffectPhase.COST then
        acc
      else if !eff.is_active s then acc
      else
        let pair := (eff.type, eff.resolve s)
        if eff.type == EffectType.GLOBAL_MULT then (acc.1 ++ [pair], acc.2)
        else if acc.2.any (fun p => p.1 == eff.target) then
          (acc.1, acc.2.map (fun p =>
            if p.1 == eff.target then (p.1, p.2 ++ [pair]) else p))
        else acc) acc)
    ([], d.currencies.map (fun cdef => (cdef.id, [])))

def recompute_rates (rt : Runtime) : Runtime :=
  let collected := collect_active_effects rt.definition rt.state
  let s := rt.definition.currencies.foldl (fun s cdef =>
    let effects := ((dictGet collected.2 cdef.id).getD []) ++ collected.1
    let rate := compute_rate rt.customPipelines cdef.id effects s
    s.updateCurrency cdef.id (fun cs => { cs with current_rate := rate }))
    rt.state
  { rt with state := s }

/-- Mirrors `GameRuntime.__init__` (after validation): fresh state, dirty
rates, plus the initial `_update_element_statuses` call. -/
def Runtime.make (d : GameDefinition) : Runtime :=
  { definition := d
    state := update_element_statuses d (GameState.init d)
    dirty := true }

/-- Mirrors `GameRuntime.tick`. -/
def tick (rt0 : Runtime) (delta : Rat) : Runtime :=
  let rt := if rt0.dirty then { (recompute_rates rt0) with dirty := false }
            else rt0
  let s := rt.definition.currencies.foldl (fun s cdef =>
    match dictGet s.currencies cdef.id with
    | none => s
    | some cs =>
      if cs.current_rate = 0 then s
      else
        let earned := cs.current_rate * delta
        let s := s.updateCurrency cdef.id (fun c =>
          { c with current := c.current + earned,
                   total_earned := if earned > 0 then c.total_earned + earned
                                   else c.total_earned })
        match resolve_cap rt.definition s cdef.id with
        | none => s
        | some cap =>
          s.updateCurrency cdef.id (fun c =>
            if cap < c.current then { c with current := cap } else c)) rt.state
  let s := process_auto_clicks rt.definition s delta
  let s := { s with time_elapsed := s.time_elapsed + delta }
  let s := update_element_statuses rt.definition s
  let s := check_milestones rt.definition s
  let s := rt.subsystems.foldl (fun s sub => sub s delta) s
  { rt with state := s }

/-- Mirrors `GameRuntime.try_purchase`.  Returns the Python boolean together
with the runtime after the call. -/
def try_purchase (rt : Runtime) (element_id : String) : Bool × Runtime :=
  match rt.definition.get_element element_id with
  | none => (false, rt)
  | some edef =>
    match dictGet rt.state.elements element_id with
    | none => (false, rt)
    | some es =>
      if (match edef.max_count with
          | some m => decide (es.count ≥ m)
          | none => false) then
        (false, rt)
      else if !es.available && !es.unlocked then (false, rt)
      else if !edef.purchase_requirements.all (fun r => r.evaluate rt.state) then
        (false, rt)
      else
        let cost := apply_cost_effects rt.definition rt.state element_id
          (edef.cost_scaling.compute edef.base_cost es.count)
        if !cost.all (fun p => decide (rt.state.currency_value p.1 ≥ p.2)) then
          (false, rt)
        else
          let s := cost.foldl (fun s p =>
            s.updateCurrency p.1 (fun cs =>
              { cs with current := cs.current - p.2 })) rt.state
          let s := s.updateElement element_id (fun e =>
            { e with count := e.count + 1 })
          let s := edef.effects.foldl (fun s eff =>
            if eff.phase == EffectPhase.IMMEDIATE then
              apply_immediate_effect s eff
            else s) s
          let s := match edef.on_purchase with
            | some f => f s
            | none => s
          let s := update_element_statuses rt.definition s
          (true, { rt with state := s, dirty := true })

/-- The state produced by the success branch of `try_purchase` (same code
as the branch body, named so that theorems can refer to it): deduct each
cost entry, increment the count, apply IMMEDIATE-phase effects, run the
purchase callback, refresh element statuses. -/
def purchase_success_state (rt : Runtime) (eid : String) (edef : ElementDef)
    (es : ElementState) : GameState :=
  let cost := apply_cost_effects rt.definition rt.state eid
    (edef.cost_scaling.compute edef.base_cost es.count)
  let s := cost.foldl (fun s p =>
    s.updateCurrency p.1 (fun cs =>
      { cs with current := cs.current - p.2 })) rt.state
  let s := s.updateElement eid (fun e => { e with count := e.count + 1 })
  let s := edef.effects.foldl (fun s eff =>
    if eff.phase == EffectPhase.IMMEDIATE then apply_immediate_effect s eff
    else s) s
  let s := match edef.on_purchase with
    | some f => f s
    | none => s
  update_element_statuses rt.definition s

/-- Mirrors `GameRuntime.process_click`.  Returns the amount added together
with the runtime after the call. -/
def process_click (rt : Runtime) (target_currency : String) : Rat × Runtime :=
  match rt.definition.get_click_target target_currency with
  | none => (0, rt)
  | some ct =>
    let click_effects := rt.definition.elements.foldl (fun acc edef =>
      if rt.state.element_count edef.id ≤ 0 then acc
      else edef.effects.foldl (fun acc eff =>
        if (eff.type == EffectType.CLICK_FLAT ||
            eff.type == EffectType.CLICK_MULT) &&
            eff.target == target_currency && eff.is_active rt.state then
          acc ++ [(eff.type, eff.resolve rt.state)]
        else acc) acc) []
    let value := compute_click_value target_currency ct.base_value
      click_effects rt.state
    let s := rt.state.updateCurrency target_currency (fun cs =>
      { cs with current := cs.current + value,
                total_earned := cs.total_earned + value })
    let s := match resolve_cap rt.definition s target_currency with
      | none => s
      | some cap =>
        s.updateCurrency target_currency (fun cs =>
          if cap < cs.current then { cs with current := cap } else cs)
    (value, { rt with state := s })

inductive ResetKind where
  | currency | element
deriving DecidableEq

/-- Mirrors `GameRuntime._resolve_reset_list`: the sentinel string selects
all non-persistent ids, an explicit list is returned verbatim, any other
string yields the empty list. -/
def resolve_reset_list (d : GameDefinition) (spec : ResetSpec)
    (kind : ResetKind) : List String :=
  match spec with
  | .str s =>
    if s = "all_non_persistent" then
      match kind with
      | .currency => (d.currencies.filter (fun c => !c.persistent)).map
          (fun c => c.id)
      | .element => (d.elements.filter (fun e =>
          !(e.tags.contains "persistent"))).map (fun e => e.id)
    else []
  | .ids l => l

/-- Mirrors `GameRuntime.trigger_prestige`. -/
def trigger_prestige (rt : Runtime) (layer_id : String) :
    PrestigeResult × Runtime :=
  match rt.definition.get_prestige_layer layer_id with
  | none => ({ success := false, reason := "Unknown prestige layer" }, rt)
  | some layer =>
    if !layer.requirements.all (fun r => r.evaluate rt.state) then
      ({ success := false, reason := "Requirements not met" }, rt)
    else
      match layer.reward_formula with
      | none => ({ success := false, reason := "No reward formula" }, rt)
      | some formula =>
        let reward := formula rt.state
        if reward < layer.minimum_reward then
          ({ success := false, reward_amount := reward,
             reason := "Reward below minimum" }, rt)
        else
          let currencies_to_reset :=
            resolve_reset_list rt.definition layer.currencies_reset .currency
          let elements_to_reset :=
            resolve_reset_list rt.definition layer.elements_reset .element
          let s := currencies_to_reset.foldl (fun s cid =>
            match dictGet s.currencies cid with
            | none => s
            | some _ =>
              let init : Rat := match rt.definition.get_currency cid with
                | some cdef => cdef.initial_value
                | none => 0
              s.updateCurrency cid (fun cs =>
                { cs with current := init, total_earned := init,
                          current_rate := 0 })) rt.state
          let s := elements_to_reset.foldl (fun s eid =>
            match dictGet s.elements eid with
            | none => s
            | some _ =>
              match rt.definition.get_element eid with
              | none => s
              | some edef =>
                if edef.tags.contains "persistent" then s
                else s.updateElement eid (fun es =>
                  { es with count := 0, available := false,
                            affordable := false })) s
          let s := s.updateCurrency layer.prestige_currency (fun cs =>
            { cs with current := cs.current + reward,
                      total_earned := cs.total_earned + reward })
          let s := { s with
            prestige_counts := dictInsert s.prestige_counts layer_id
              (((dictGet s.prestige_counts layer_id).getD 0) + 1),
            run_number := s.run_number + 1 }
          let s := update_element_statuses rt.definition s
          ({ success := true, reward_amount := reward,
             currencies_reset := currencies_to_reset,
             elements_reset := elements_to_reset },
           { rt with state := s, dirty := true })

/-- The state produced by the success branch of `trigger_prestige` (same
code as the branch body, named so that theorems can refer to it). -/
def prestige_success_state (rt : Runtime) (layer_id : String)
    (layer : PrestigeLayerDef) (reward : Rat) : GameState :=
  let currencies_to_reset :=
    resolve_reset_list rt.definition layer.currencies_reset .currency
  let elements_to_reset :=
    resolve_reset_list rt.definition layer.elements_reset .element
  let s := currencies_to_reset.foldl (fun s cid =>
    match dictGet s.currencies cid with
    | none => s
    | some _ =>
      let init : Rat := match rt.definition.get_currency cid with
        | some cdef => cdef.initial_value
        | none => 0
      s.updateCurrency cid (fun cs =>
        { cs with current := init, total_earned := init,
                  current_rate := 0 })) rt.state
  let s := elements_to_reset.foldl (fun s eid =>
    match dictGet s.elements eid with
    | none => s
    | some _ =>
      match rt.definition.get_element eid with
      | none => s
      | some edef =>
        if edef.tags.contains "persistent" then s
        else s.updateElement eid (fun es =>
          { es with count := 0, available := false,
                    affordable := false })) s
  let s := s.updateCurrency layer.prestige_currency (fun cs =>
    { cs with current := cs.current + reward,
              total_earned := cs.total_earned + reward })
  let s := { s with
    prestige_counts := dictInsert s.prestige_counts layer_id
      (((dictGet s.prestige_counts layer_id).getD 0) + 1),
    run_number := s.run_number + 1 }
  update_element_statuses rt.definition s

/-- The initial value a prestige reset restores for currency `cid` (0 for
an unknown currency, mirroring `cdef.initial_value if cdef else 0.0`). -/
def initOf (d : GameDefinition) (cid : String) : Rat :=
  match d.get_currency cid with
  | some cdef => cdef.initial_value
  | none => 0

/-- The currency record a prestige reset writes for `cid`. -/
def resetRec (d : GameDefinition) (cid : String) : CurrencyState :=
  { current := initOf d cid, total_earned := initOf d cid,
    current_rate := 0 }

/-- Mirrors `GameRuntime.compute_current_cost`. -/
def compute_current_cost (rt : Runtime) (element_id : String) :
    List (String × Rat) :=
  match rt.definition.get_element element_id with
  | none => []
  | some edef =>
    match dictGet rt.state.elements element_id with
    | none => []
    | some es =>
      apply_cost_effects rt.definition rt.state element_id
        (edef.cost_scaling.compute edef.base_cost es.count)

/-- The per-currency loop of `GameRuntime.compute_time_to_afford`, with the
`return None` early exit expressed through `Option`. -/
def time_to_afford_loop (s : GameState) :
    List (String × Rat) → Rat → Option Rat
  | [], max_time => some max_time
  | (cur_id, amount) :: rest, max_time =>
    if s.currency_value cur_id ≥ amount then
      time_to_afford_loop s rest max_time
    else if s.currency_rate cur_id ≤ 0 then none
    else
      let t := (amount - s.currency_value cur_id) / s.currency_rate cur_id
      time_to_afford_loop s rest (if t > max_time then t else max_time)

/-- Mirrors `GameRuntime.compute_time_to_afford`: `none` when the cost map is
empty or some unmet cost currency has rate ≤ 0. -/
def compute_time_to_afford (rt : Runtime) (element_id : String) : Option Rat :=
  let cost := compute_current_cost rt element_id
  if cost.isEmpty then none
  else time_to_afford_loop rt.state cost 0

/-! ## GreedyROI speculative purchase (src/idleengine/strategy.py 146-176)

One iteration of the candidate loop of `GreedyROI.decide_purchases`: save the
old rates, speculatively purchase, force a rate recompute, then undo by
decrementing the count, refunding the cost computed at the decremented count,
and restoring the saved rates.  The ROI score itself is irrelevant to the
round-trip claim and is not modelled. -/

def greedy_roi_probe (rt : Runtime) (element_id : String) : Runtime :=
  let old_rates := rt.definition.currencies.map (fun cdef =>
    (cdef.id, rt.state.currency_rate cdef.id))
  match try_purchase rt element_id with
  | (false, rt1) => rt1
  | (true, rt1) =>
    let rt2 := recompute_rates { rt1 with dirty := true }
    let s := rt2.state.updateElement element_id (fun es =>
      { es with count := es.count - 1 })
    let s := match rt2.definition.get_element element_id with
      | none => s
      | some edef =>
        let cost := apply_cost_effects rt2.definition s element_id
          (edef.cost_scaling.compute edef.base_cost (s.element_count element_id))
        cost.foldl (fun s p =>
          s.updateCurrency p.1 (fun cs =>
            { cs with current := cs.current + p.2 })) s
    let s := old_rates.foldl (fun s p =>
      s.updateCurrency p.1 (fun cs => { cs with current_rate := p.2 })) s
    { rt2 with state := s, dirty := true }

/-! ## Milestone recording in the simulation loop
(src/idleengine/simulation.py, step 5 of `_run_tick` / `_run_event_jump`)

Each iteration walks `state.milestones_reached` and appends every id not yet
in `milestones_seen` to the milestone event log, adding it to the seen set.
The rest of the loop may change the reached map arbitrarily, so the log
property is proved for an arbitrary sequence of reached-map snapshots. -/

def record_new_milestones (reached : List (String × Rat))
    (acc : List String × List String) : List String × List String :=
  reached.foldl (fun acc m =>
    if acc.1.contains m.1 then acc
    else (m.1 :: acc.1, acc.2 ++ [m.1])) acc

def milestone_log_run (snapshots : List (List (String × Rat)))
    (acc : List String × List String) : List String × List String :=
  snapshots.foldl (fun acc reached => record_new_milestones reached acc) acc

/-! ## Specification-side pipeline formula (spec §4.1)

These definitions follow the spec's words — `rate = flat_sum × (1 +
add_pct_sum) × Π(mult_values) × Π(global_mult_values)` — and are compared
with `compute_rate`, which is translated from the source. -/

def specFlatSum (effects : List (EffectType × Rat)) : Rat :=
  ((effects.filter (fun p => p.1 == EffectType.PRODUCTION_FLAT)).map
    (fun p => p.2)).sum

def specAddPctSum (effects : List (EffectType × Rat)) : Rat :=
  ((effects.filter (fun p => p.1 == EffectType.PRODUCTION_ADD_PCT)).map
    (fun p => p.2)).sum

def specMultProd (effects : List (EffectType × Rat)) : Rat :=
  ((effects.filter (fun p => p.1 == EffectType.PRODUCTION_MULT)).map
    (fun p => p.2)).prod

def specGlobalProd (effects : List (EffectType × Rat)) : Rat :=
  ((effects.filter (fun p => p.1 == EffectType.GLOBAL_MULT)).map
    (fun p => p.2)).prod

def specClickFlatSum (effects : List (EffectType × Rat)) : Rat :=
  ((effects.filter (fun p => p.1 == EffectType.CLICK_FLAT)).map
    (fun p => p.2)).sum

def specClickMultProd (effects : List (EffectType × Rat)) : Rat :=
  ((effects.filter (fun p => p.1 == EffectType.CLICK_MULT)).map
    (fun p => p.2)).prod

/-- Replace the trigger of milestone `mid`; used to state that the trigger
of an already-reached milestone is never consulted. -/
def replace_trigger (d : GameDefinition) (mid : String)
    (t : Option Requirement) : GameDefinition :=
  { d with milestones := d.milestones.map (fun m =>
      if m.id == mid then { m with trigger := t } else m) }

/-! ## Concrete games used by witnesses and counterexamples -/

/-- A minimal game: 10 gold, one element costing 5 gold. -/
def dW1 : GameDefinition :=
  { currencies := [{ id := "gold", initial_value := 10 }]
    elements := [{ id := "miner", base_cost := [("gold", 5)] }] }

def rtW1 : Runtime := Runtime.make dW1

/-- Prestige layer whose explicit reset list names a persistent currency. -/
def layerC3 : PrestigeLayerDef :=
  { id := "asc"
    prestige_currency := "gold"
    reward_formula := some (fun _ => 1)
    currencies_reset := ResetSpec.ids ["gems"] }

def dC3 : GameDefinition :=
  { currencies := [{ id := "gold" }, { id := "gems", persistent := true }]
    prestige_layers := [layerC3] }

def sC3 : GameState :=
  { currencies := [("gold", {}), ("gems", { current := 100, total_earned := 100 })]
    prestige_counts := [("asc", 0)] }

def rtC3 : Runtime := { definition := dC3, state := sC3, dirty := false }

/-- Sentinel-based prestige over the same shape, for the amended C3 claim. -/
def altarW3 : ElementDef :=
  { id := "altar"
    base_cost := [("gold", 5)]
    tags := ["persistent"] }

def layerW3 : PrestigeLayerDef :=
  { id := "asc"
    prestige_currency := "gold"
    reward_formula := some (fun _ => 1)
    currencies_reset := ResetSpec.str "all_non_persistent"
    elements_reset := ResetSpec.str "all_non_persistent" }

def dW3 : GameDefinition :=
  { currencies := [{ id := "gold" }, { id := "gems", persistent := true }]
    elements := [altarW3]
    prestige_layers := [layerW3] }

def sW3 : GameState :=
  { currencies := [("gold", { current := 50, total_earned := 50, current_rate := 2 }),
                   ("gems", { current := 7, total_earned := 7 })]
    elements := [("altar", { count := 3, available := true })]
    prestige_counts := [("asc", 0)] }

def rtW3 : Runtime := { definition := dW3, state := sW3, dirty := false }

/-- One affordable element costing the entire balance: the GreedyROI probe
leaves its `affordable` flag stale after the undo. -/
def dC4 : GameDefinition :=
  { currencies := [{ id := "gold", initial_value := 10 }]
    elements := [{ id := "m", base_cost := [("gold", 10)] }] }

def rtC4 : Runtime := Runtime.make dC4

/-- A click target with a negative base value: clicking decreases
total_earned. -/
def dC5 : GameDefinition :=
  { currencies := [{ id := "gold", initial_value := 5 }]
    click_targets := [{ currency := "gold", base_value := -1 }] }

def rtC5 : Runtime := Runtime.make dC5

/-- A game with one milestone, used for the C6 witness. -/
def dC6 : GameDefinition :=
  { currencies := [{ id := "gold", initial_value := 1 }]
    milestones := [{ id := "first", trigger := some (.resource "gold" .ge 1) }] }

def sC6 : GameState :=
  { currencies := [("gold", { current := 1, total_earned := 1 })]
    milestones_reached := [("first", 1)] }

def rtC6 : Runtime := { definition := dC6, state := sC6, dirty := false }

/-- Prestige layer whose reward formula returns 1/2 against a minimum of 1. -/
def layerC7 : PrestigeLayerDef :=
  { id := "p"
    prestige_currency := "gold"
    reward_formula := some (fun _ => 1 / 2)
    minimum_reward := 1 }

def dC7 : GameDefinition :=
  { currencies := [{ id := "gold", initial_value := 3 }]
    prestige_layers := [layerC7] }

def rtC7 : Runtime := Runtime.make dC7

/-- A free element (empty cost map) plus an unaffordable one with zero
production. -/
def dC8 : GameDefinition :=
  { currencies := [{ id := "gold" }]
    elements := [{ id := "free" }, { id := "exp", base_cost := [("gold", 10)] }] }

def rtC8 : Runtime := Runtime.make dC8

/-- An element whose effect is built by `Effect.per_count` with
PRODUCTION_MULT — the combination the spec says must draw a warning. -/
def shrineC9 : ElementDef :=
  { id := "shrine"
    base_cost := [("gold", 5)]
    effects := [Effect.per_count "shrine" EffectType.PRODUCTION_MULT "gold" (1 / 2)] }

def dC9 : GameDefinition :=
  { currencies := [{ id := "gold" }]
    elements := [shrineC9] }

/-- An element that is sticky-unlocked while its requirement is unmet. -/
def relicC10 : ElementDef :=
  { id := "relic"
    base_cost := [("gold", 3)]
    requirements := [.resource "gold" .ge 1000] }

def layerC10 : PrestigeLayerDef :=
  { id := "reset"
    prestige_currency := "gold"
    reward_formula := some (fun _ => 2)
    currencies_reset := ResetSpec.str "all_non_persistent"
    elements_reset := ResetSpec.ids ["relic"] }

def dC10 : GameDefinition :=
  { currencies := [{ id := "gold" }]
    elements := [relicC10]
    click_targets := [{ currency := "gold", base_value := 1 }]
    prestige_layers := [layerC10] }

def sC10 : GameState :=
  { currencies := [("gold", { current := 5, total_earned := 5 })]
    elements := [("relic", { count := 2, available := true, affordable := false, unlocked := true })]
    prestige_counts := [("reset", 0)] }

def rtC10 : Runtime := { definition := dC10, state := sC10 }

/-- All components of a `GameState` except the currency map, bundled so that
frame lemmas are single equalities. -/
def nonCurrency (s : GameState) :
    Rat × List (String × ElementState) × List (String × Rat) ×
      List (String × Int) × Int :=
  (s.time_elapsed, s.elements, s.milestones_reached, s.prestige_counts,
   s.run_number)

/-- All components of a `GameState` except the element map. -/
def nonElements (s : GameState) :
    Rat × List (String × CurrencyState) × List (String × Rat) ×
      List (String × Int) × Int :=
  (s.time_elapsed, s.currencies, s.milestones_reached, s.prestige_counts,
   s.run_number)

/-- All components of a `GameState` except the milestones-reached map. -/
def nonMilestones (s : GameState) :
    Rat × List (String × CurrencyState) × List (String × ElementState) ×
      List (String × Int) × Int :=
  (s.time_elapsed, s.currencies, s.elements, s.prestige_counts, s.run_number)

/-- No milestone of the definition carries an `on_trigger` callback.
Callbacks are arbitrary user-supplied state mutators, outside the engine's
own guarantees. -/
def NoMilestoneCallbacks (d : GameDefinition) : Prop :=
  ∀ m ∈ d.milestones, m.on_trigger = none

/-- No element of the definition carries an `on_purchase` callback. -/
def NoElementCallbacks (d : GameDefinition) : Prop :=
  ∀ e ∈ d.elements, e.on_purchase = none

/-- One iteration of the `_update_element_statuses` loop (the body of
`update_element_statuses`, named for the proofs;
`update_element_statuses d s = d.elements.foldl (ues_step d) s` by
definition). -/
def ues_step (d : GameDefinition) (s : GameState) (edef : ElementDef) :
    GameState :=
  match dictGet s.elements edef.id with
  | none => s
  | some es =>
    let avail : Bool :=
      if es.unlocked then true
      else edef.requirements.all (fun r => r.evaluate s)
    let s := s.updateElement edef.id (fun e => { e with available := avail })
    let afford : Bool :=
      if avail &&
          (match edef.max_count with
           | none => true
           | some m => decide (es.count < m)) then
        let cost := apply_cost_effects d s edef.id
          (edef.cost_scaling.compute edef.base_cost es.count)
        cost.all (fun p => decide (s.currency_value p.1 ≥ p.2))
      else false
    s.updateElement edef.id (fun e => { e with affordable := afford })

/-- The clock, milestone map, prestige counters and run number of a state:
the components no purchase/undo round-trip may disturb. -/
def metaOf (s : GameState) :
    Rat × List (String × Rat) × List (String × Int) × Int :=
  (s.time_elapsed, s.milestones_reached, s.prestige_counts, s.run_number)

/-! ## Helper lemmas about the dictionary model -/

theorem dictGet_cons {α : Type} (p : String × α) (m : List (String × α))
    (k : String) :
    dictGet (p :: m) k = if p.1 = k then some p.2 else dictGet m k := by
  by_cases h : p.1 = k
  · simp [dictGet, List.find?, h]
  · have hb : (p.1 == k) = false := beq_eq_false_iff_ne.mpr h
    simp [dictGet, List.find?, hb, h]

theorem updateKey_cons {α : Type} (p : String × α) (m : List (String × α))
    (k : String) (f : α → α) :
    updateKey (p :: m) k f =
      (if p.1 = k then (p.1, f p.2) else p) :: updateKey m k f := by
  by_cases h : p.1 = k <;> simp [updateKey, h]

theorem dictGet_updateKey {α : Type} (m : List (String × α)) (k k2 : String)
    (f : α → α) :
    dictGet (updateKey m k f) k2 =
      if k2 = k then (dictGet m k).map f else dictGet m k2 := by
  induction m with
  | nil => by_cases h : k2 = k <;> simp [dictGet, updateKey, h]
  | cons p m ih =>
    rw [updateKey_cons]
    by_cases hpk : p.1 = k
    · by_cases hk2 : k2 = k
      · have hp2 : p.1 = k2 := hpk.trans hk2.symm
        rw [if_pos hpk, dictGet_cons, if_pos hp2, if_pos hk2,
            dictGet_cons, if_pos hpk]
        rfl
      · have hpk2 : ¬ p.1 = k2 := fun hc => hk2 (hc.symm.trans hpk)
        rw [if_pos hpk, dictGet_cons, dictGet_cons, if_neg hpk2, ih,
            if_neg hk2, if_neg hk2, dictGet_cons, if_neg hpk2]
    · by_cases hk2 : k2 = k
      · have hpk2 : ¬ p.1 = k2 := fun hc => hpk (hc.trans hk2)
        rw [if_neg hpk, dictGet_cons, dictGet_cons]
        rw [if_neg hpk2, if_pos hk2, if_neg hpk, ih, if_pos hk2]
      · rw [if_neg hpk, dictGet_cons, dictGet_cons, ih, if_neg hk2,
            if_neg hk2, dictGet_cons]

theorem dictGet_updateKey_proj {α β : Type} (m : List (String × α))
    (k k2 : String) (f : α → α) (proj : α → β)
    (h : ∀ a, proj (f a) = proj a) :
    (dictGet (updateKey m k f) k2).map proj = (dictGet m k2).map proj := by
  rw [dictGet_updateKey]
  by_cases hk : k2 = k
  · subst hk
    cases dictGet m k2 <;> simp [h]
  · simp [hk]

theorem dictGet_append {α : Type} (m1 m2 : List (String × α)) (k : String) :
    dictGet (m1 ++ m2) k =
      match dictGet m1 k with
      | some v => some v
      | none => dictGet m2 k := by
  induction m1 with
  | nil => simp [dictGet]
  | cons p m ih =>
    rw [List.cons_append, dictGet_cons, dictGet_cons]
    by_cases h : p.1 = k <;> simp [h, ih]

theorem dictGet_eq_none_of_not_any {α : Type} (m : List (String × α))
    (k : String) (h : m.any (fun p => p.1 == k) = false) :
    dictGet m k = none := by
  induction m with
  | nil => rfl
  | cons p m ih =>
    rw [List.any_cons, Bool.or_eq_false_iff] at h
    rw [dictGet_cons, if_neg (beq_eq_false_iff_ne.mp h.1)]
    exact ih h.2

theorem dictGet_map_replace_self {α : Type} (m : List (String × α))
    (k : String) (v : α) (hany : m.any (fun p => p.1 == k) = true) :
    dictGet (m.map (fun p => if p.1 == k then (k, v) else p)) k = some v := by
  induction m with
  | nil => simp at hany
  | cons p m ih =>
    rw [List.any_cons, Bool.or_eq_true] at hany
    rw [List.map_cons]
    by_cases hp : p.1 = k
    · have hb : (p.1 == k) = true := beq_iff_eq.mpr hp
      rw [if_pos hb, dictGet_cons, if_pos rfl]
    · have hb : (p.1 == k) = false := beq_eq_false_iff_ne.mpr hp
      rw [if_neg (by rw [hb]; exact Bool.false_ne_true), dictGet_cons,
          if_neg hp]
      rcases hany with hcase | hcase
      · exact absurd hcase (by rw [hb]; exact Bool.false_ne_true)
      · exact ih hcase

theorem dictGet_map_replace_ne {α : Type} (m : List (String × α))
    (k k2 : String) (v : α) (h : k2 ≠ k) :
    dictGet (m.map (fun p => if p.1 == k then (k, v) else p)) k2 =
      dictGet m k2 := by
  induction m with
  | nil => rfl
  | cons p m ih =>
    rw [List.map_cons]
    by_cases hp : p.1 = k
    · have hb : (p.1 == k) = true := beq_iff_eq.mpr hp
      have hk2 : ¬ (k = k2) := fun hc => h hc.symm
      have hp2 : ¬ p.1 = k2 := fun hc => h (hc.symm.trans hp)
      rw [if_pos hb, dictGet_cons, if_neg hk2, dictGet_cons, if_neg hp2, ih]
    · have hb : (p.1 == k) = false := beq_eq_false_iff_ne.mpr hp
      rw [if_neg (by rw [hb]; exact Bool.false_ne_true), dictGet_cons,
          dictGet_cons, ih]

theorem dictGet_dictInsert_self {α : Type} (m : List (String × α))
    (k : String) (v : α) : dictGet (dictInsert m k v) k = some v := by
  unfold dictInsert
  by_cases hany : m.any (fun p => p.1 == k) = true
  · rw [if_pos hany]
    exact dictGet_map_replace_self m k v hany
  · rw [if_neg hany, dictGet_append,
        dictGet_eq_none_of_not_any m k (Bool.eq_false_iff.mpr hany)]
    rw [dictGet_cons, if_pos rfl]

theorem dictGet_dictInsert_ne {α : Type} (m : List (String × α))
    (k k2 : String) (v : α) (h : k2 ≠ k) :
    dictGet (dictInsert m k v) k2 = dictGet m k2 := by
  unfold dictInsert
  by_cases hany : m.any (fun p => p.1 == k) = true
  · rw [if_pos hany]
    exact dictGet_map_replace_ne m k k2 v h
  · rw [if_neg hany, dictGet_append]
    cases hm : dictGet m k2 with
    | some v2 => rfl
    | none => rw [dictGet_cons, if_neg (fun hc : k = k2 => h hc.symm)]; rfl

theorem has_milestone_iff (s : GameState) (mid : String) :
    s.has_milestone mid = (dictGet s.milestones_reached mid).isSome := by
  unfold GameState.has_milestone dictGet
  induction s.milestones_reached with
  | nil => rfl
  | cons p m ih =>
    simp only [List.any_cons, List.find?]
    by_cases h : (p.1 == mid) = true <;> simp [h, ih]

@[simp]
theorem updateCurrency_elements (s : GameState) (id : String)
    (f : CurrencyState → CurrencyState) :
    (s.updateCurrency id f).elements = s.elements := rfl

@[simp]
theorem updateCurrency_time (s : GameState) (id : String)
    (f : CurrencyState → CurrencyState) :
    (s.updateCurrency id f).time_elapsed = s.time_elapsed := rfl

@[simp]
theorem updateCurrency_milestones (s : GameState) (id : String)
    (f : CurrencyState → CurrencyState) :
    (s.updateCurrency id f).milestones_reached = s.milestones_reached := rfl

@[simp]
theorem updateCurrency_prestige (s : GameState) (id : String)
    (f : CurrencyState → CurrencyState) :
    (s.updateCurrency id f).prestige_counts = s.prestige_counts := rfl

@[simp]
theorem updateCurrency_run (s : GameState) (id : String)
    (f : CurrencyState → CurrencyState) :
    (s.updateCurrency id f).run_number = s.run_number := rfl

@[simp]
theorem updateCurrency_currencies (s : GameState) (id : String)
    (f : CurrencyState → CurrencyState) :
    (s.updateCurrency id f).currencies = updateKey s.currencies id f := rfl

@[simp]
theorem updateElement_currencies (s : GameState) (id : String)
    (f : ElementState → ElementState) :
    (s.updateElement id f).currencies = s.currencies := rfl

@[simp]
theorem updateElement_time (s : GameState) (id : String)
    (f : ElementState → ElementState) :
    (s.updateElement id f).time_elapsed = s.time_elapsed := rfl

@[simp]
theorem updateElement_milestones (s : GameState) (id : String)
    (f : ElementState → ElementState) :
    (s.updateElement id f).milestones_reached = s.milestones_reached := rfl

@[simp]
theorem updateElement_prestige (s : GameState) (id : String)
    (f : ElementState → ElementState) :
    (s.updateElement id f).prestige_counts = s.prestige_counts := rfl

@[simp]
theorem updateElement_run (s : GameState) (id : String)
    (f : ElementState → ElementState) :
    (s.updateElement id f).run_number = s.run_number := rfl

@[simp]
theorem updateElement_elements (s : GameState) (id : String)
    (f : ElementState → ElementState) :
    (s.updateElement id f).elements = updateKey s.elements id f := rfl

/-! ## The default pipeline formula (claim C2) -/

theorem rate_fold_char (effects : List (EffectType × Rat))
    (init : Rat × Rat × Rat × Rat) :
    effects.foldl
      (fun (a : Rat × Rat × Rat × Rat) p =>
        match p.1 with
        | .PRODUCTION_FLAT => (a.1 + p.2, a.2.1, a.2.2.1, a.2.2.2)
        | .PRODUCTION_ADD_PCT => (a.1, a.2.1 + p.2, a.2.2.1, a.2.2.2)
        | .PRODUCTION_MULT => (a.1, a.2.1, a.2.2.1 * p.2, a.2.2.2)
        | .GLOBAL_MULT => (a.1, a.2.1, a.2.2.1, a.2.2.2 * p.2)
        | _ => a) init =
      (init.1 + specFlatSum effects, init.2.1 + specAddPctSum effects,
       init.2.2.1 * specMultProd effects,
       init.2.2.2 * specGlobalProd effects) := by
  induction effects generalizing init with
  | nil => simp [specFlatSum, specAddPctSum, specMultProd, specGlobalProd]
  | cons p rest ih =>
    obtain ⟨t, v⟩ := p
    rw [List.foldl_cons]
    cases t <;>
      simp [ih, specFlatSum, specAddPctSum, specMultProd, specGlobalProd,
        List.filter_cons, add_assoc, mul_assoc]

theorem click_fold_char (effects : List (EffectType × Rat))
    (init : Rat × Rat) :
    effects.foldl
      (fun (a : Rat × Rat) p =>
        match p.1 with
        | .CLICK_FLAT => (a.1 + p.2, a.2)
        | .CLICK_MULT => (a.1, a.2 * p.2)
        | _ => a) init =
      (init.1 + specClickFlatSum effects,
       init.2 * specClickMultProd effects) := by
  induction effects generalizing init with
  | nil => simp [specClickFlatSum, specClickMultProd]
  | cons p rest ih =>
    obtain ⟨t, v⟩ := p
    rw [List.foldl_cons]
    cases t <;>
      simp [ih, specClickFlatSum, specClickMultProd, List.filter_cons,
        add_assoc, mul_assoc]

/-- C2: for a currency with no registered custom pipeline, the computed
production rate equals flat_sum × (1 + add_pct_sum) × Π(mult) × Π(global
mult); an empty effect list yields rate 0 and the base click value; effect
types outside the recognized sets contribute nothing. -/
theorem pipeline_formula (custom : List (String × PipelineFn)) (cid : String)
    (effects : List (EffectType × Rat)) (s : GameState) (b : Rat)
    (h : dictGet custom cid = none) :
    compute_rate custom cid effects s =
      specFlatSum effects * (1 + specAddPctSum effects) *
        specMultProd effects * specGlobalProd effects ∧
    compute_rate custom cid [] s = 0 ∧
    compute_click_value cid b [] s = b ∧
    (∀ t v, t ≠ EffectType.PRODUCTION_FLAT →
      t ≠ EffectType.PRODUCTION_ADD_PCT → t ≠ EffectType.PRODUCTION_MULT →
      t ≠ EffectType.GLOBAL_MULT →
      compute_rate custom cid ((t, v) :: effects) s =
        compute_rate custom cid effects s) ∧
    (∀ t v, t ≠ EffectType.CLICK_FLAT → t ≠ EffectType.CLICK_MULT →
      compute_click_value cid b ((t, v) :: effects) s =
        compute_click_value cid b effects s) := by
  have hrate : ∀ effs : List (EffectType × Rat),
      compute_rate custom cid effs s =
        specFlatSum effs * (1 + specAddPctSum effs) *
          specMultProd effs * specGlobalProd effs := by
    intro effs
    unfold compute_rate
    rw [h]
    simp only [rate_fold_char]
    ring
  have hclick : ∀ effs : List (EffectType × Rat),
      compute_click_value cid b effs s =
        (b + specClickFlatSum effs) * specClickMultProd effs := by
    intro effs
    unfold compute_click_value
    simp only [click_fold_char, one_mul]
  refine ⟨hrate effects, ?_, ?_, ?_, ?_⟩
  · rw [hrate []]
    simp [specFlatSum, specAddPctSum, specMultProd, specGlobalProd]
  · rw [hclick []]
    simp [specClickFlatSum, specClickMultProd]
  · intro t v h1 h2 h3 h4
    rw [hrate ((t, v) :: effects), hrate effects]
    simp [specFlatSum, specAddPctSum, specMultProd, specGlobalProd,
      List.filter_cons, beq_eq_false_iff_ne.mpr h1, beq_eq_false_iff_ne.mpr h2,
      beq_eq_false_iff_ne.mpr h3, beq_eq_false_iff_ne.mpr h4]
  · intro t v h1 h2
    rw [hclick ((t, v) :: effects), hclick effects]
    simp [specClickFlatSum, specClickMultProd, List.filter_cons,
      beq_eq_false_iff_ne.mpr h1, beq_eq_false_iff_ne.mpr h2]

/-- Witness for C2 at a concrete effect list with an empty custom registry. -/
theorem pipeline_formula_witness :
    compute_rate [] "gold"
      [(EffectType.PRODUCTION_FLAT, 3), (EffectType.PRODUCTION_MULT, 2)]
      {} =
      specFlatSum
          [(EffectType.PRODUCTION_FLAT, 3), (EffectType.PRODUCTION_MULT, 2)] *
        (1 + specAddPctSum
          [(EffectType.PRODUCTION_FLAT, 3), (EffectType.PRODUCTION_MULT, 2)]) *
        specMultProd
          [(EffectType.PRODUCTION_FLAT, 3), (EffectType.PRODUCTION_MULT, 2)] *
        specGlobalProd
          [(EffectType.PRODUCTION_FLAT, 3), (EffectType.PRODUCTION_MULT, 2)] :=
  (pipeline_formula [] "gold"
    [(EffectType.PRODUCTION_FLAT, 3), (EffectType.PRODUCTION_MULT, 2)]
    {} 1 rfl).1

/-! ## Prestige minimum-reward rejection (claim C7) -/

/-- C7: when a prestige layer's reward formula evaluates below the layer's
minimum reward, `trigger_prestige` returns a failure result that still
carries the computed reward and a reason string, and the runtime — in
particular every part of the game state — is returned unchanged. -/
theorem prestige_min_reward_rejected (rt : Runtime) (layer_id : String)
    (layer : PrestigeLayerDef) (f : GameState → Rat)
    (hget : rt.definition.get_prestige_layer layer_id = some layer)
    (hreq : layer.requirements.all (fun r => r.evaluate rt.state) = true)
    (hf : layer.reward_formula = some f)
    (hmin : f rt.state < layer.minimum_reward) :
    trigger_prestige rt layer_id =
      ({ success := false, reward_amount := f rt.state,
         reason := "Reward below minimum" }, rt) := by
  unfold trigger_prestige
  rw [hget]
  simp only [hreq, Bool.not_true, Bool.false_eq_true, if_false, hf]
  rw [if_pos hmin]

/-- Witness for C7: reward 1/2 against minimum 1 fails, reports 1/2, and
leaves the runtime untouched. -/
theorem prestige_min_reward_rejected_witness :
    trigger_prestige rtC7 "p" =
      ({ success := false, reward_amount := 1 / 2,
         reason := "Reward below minimum" }, rtC7) :=
  prestige_min_reward_rejected rtC7 "p" layerC7 (fun _ => 1 / 2) rfl rfl rfl
    (by norm_num [layerC7])

/-! ## The per-count × multiplicative warning (claim C9) -/

theorem warnings_nil_of_no_marker (d : GameDefinition)
    (h : ∀ e ∈ d.elements, ∀ eff ∈ e.effects, eff.created_by = none) :
    d.per_count_mult_warnings = [] := by
  unfold GameDefinition.per_count_mult_warnings
  suffices hgen : ∀ es : List ElementDef,
      (∀ e ∈ es, ∀ eff ∈ e.effects, eff.created_by = none) →
      ∀ acc : List (String × EffectType),
        es.foldl (fun acc e =>
          e.effects.foldl (fun acc eff =>
            if eff.created_by == some "per_count" &&
                (eff.type == EffectType.PRODUCTION_MULT ||
                 eff.type == EffectType.GLOBAL_MULT) then
              acc ++ [(e.id, eff.type)]
            else acc) acc) acc = acc by
    exact hgen d.elements h []
  intro es
  induction es with
  | nil => intro _ acc; rfl
  | cons e rest ih =>
    intro hno acc
    rw [List.foldl_cons]
    have hinner : ∀ (effs : List EffectDef),
        (∀ eff ∈ effs, eff.created_by = none) →
        ∀ acc2 : List (String × EffectType),
        effs.foldl (fun acc eff =>
          if eff.created_by == some "per_count" &&
              (eff.type == EffectType.PRODUCTION_MULT ||
               eff.type == EffectType.GLOBAL_MULT) then
            acc ++ [(e.id, eff.type)]
          else acc) acc2 = acc2 := by
      intro effs
      induction effs with
      | nil => intro _ acc2; rfl
      | cons eff effs2 ih2 =>
        intro he acc2
        rw [List.foldl_cons]
        have hcb : eff.created_by = none :=
          he eff (List.mem_cons_self eff effs2)
        rw [hcb]
        have hb : ((none : Option String) == some "per_count") = false := rfl
        rw [hb]
        simp only [Bool.false_and, Bool.false_eq_true, if_false]
        exact ih2 (fun eff2 hm => he eff2 (List.mem_cons_of_mem eff hm)) acc2
    rw [hinner e.effects (hno e (List.mem_cons_self e rest)) acc]
    exact ih (fun e2 hm => hno e2 (List.mem_cons_of_mem e hm)) acc

/-- C9: the warning branch of `validate` requires the marker
`_created_by == "per_count"`, but `Effect.per_count` never sets that marker,
so the warning is never emitted — in particular not for `dC9`, whose element
combines a per-count effect with PRODUCTION_MULT and which the spec says
must draw a soft warning. -/
theorem per_count_mult_warning_never_fires :
    (∀ (element : String) (type : EffectType) (target : String)
        (per_unit : Rat) (condition : Option Requirement),
      (Effect.per_count element type target per_unit condition).created_by =
        none) ∧
    shrineC9.effects =
      [Effect.per_count "shrine" EffectType.PRODUCTION_MULT "gold" (1 / 2)] ∧
    dC9.per_count_mult_warnings = [] := by
  refine ⟨fun _ _ _ _ _ => rfl, rfl, ?_⟩
  apply warnings_nil_of_no_marker
  intro e he eff heff
  simp only [dC9, List.mem_singleton] at he
  subst he
  simp only [shrineC9, List.mem_singleton] at heff
  subst heff
  rfl

/-! ## Time to afford (claim C8) -/

theorem time_to_afford_loop_none_iff (s : GameState)
    (cost : List (String × Rat)) (m : Rat) :
    time_to_afford_loop s cost m = none ↔
      ∃ p ∈ cost, s.currency_value p.1 < p.2 ∧ s.currency_rate p.1 ≤ 0 := by
  induction cost generalizing m with
  | nil => simp [time_to_afford_loop]
  | cons p rest ih =>
    obtain ⟨cid, amount⟩ := p
    unfold time_to_afford_loop
    by_cases hval : s.currency_value cid ≥ amount
    · rw [if_pos hval, ih]
      constructor
      · rintro ⟨q, hq, h1, h2⟩
        exact ⟨q, List.mem_cons_of_mem _ hq, h1, h2⟩
      · rintro ⟨q, hq, h1, h2⟩
        rcases List.mem_cons.mp hq with hq | hq
        · exfalso
          rw [hq] at h1
          exact absurd h1 (not_lt.mpr hval)
        · exact ⟨q, hq, h1, h2⟩
    · rw [if_neg hval]
      by_cases hrate : s.currency_rate cid ≤ 0
      · rw [if_pos hrate]
        constructor
        · intro _
          exact ⟨(cid, amount), List.mem_cons_self _ _,
            not_le.mp hval, hrate⟩
        · intro _; rfl
      · rw [if_neg hrate, ih]
        constructor
        · rintro ⟨q, hq, h1, h2⟩
          exact ⟨q, List.mem_cons_of_mem _ hq, h1, h2⟩
        · rintro ⟨q, hq, h1, h2⟩
          rcases List.mem_cons.mp hq with hq | hq
          · exfalso
            rw [hq] at h2
            exact absurd h2 hrate
          · exact ⟨q, hq, h1, h2⟩

theorem time_to_afford_loop_nonneg (s : GameState)
    (cost : List (String × Rat)) (m : Rat) (hm : 0 ≤ m) (t : Rat)
    (ht : time_to_afford_loop s cost m = some t) : 0 ≤ t := by
  induction cost generalizing m with
  | nil =>
    unfold time_to_afford_loop at ht
    cases ht
    exact hm
  | cons p rest ih =>
    obtain ⟨cid, amount⟩ := p
    unfold time_to_afford_loop at ht
    by_cases hval : s.currency_value cid ≥ amount
    · rw [if_pos hval] at ht
      exact ih m hm ht
    · rw [if_neg hval] at ht
      by_cases hrate : s.currency_rate cid ≤ 0
      · rw [if_pos hrate] at ht
        cases ht
      · rw [if_neg hrate] at ht
        refine ih _ ?_ ht
        by_cases hgt :
            (amount - s.currency_value cid) / s.currency_rate cid > m
        · rw [if_pos hgt]
          have hnum : 0 ≤ amount - s.currency_value cid :=
            sub_nonneg.mpr (le_of_lt (not_le.mp hval))
          have hden : 0 < s.currency_rate cid := not_le.mp hrate
          positivity
        · rw [if_neg hgt]
          exact hm

theorem time_to_afford_loop_all_met (s : GameState)
    (cost : List (String × Rat)) (m : Rat)
    (h : ∀ p ∈ cost, s.currency_value p.1 ≥ p.2) :
    time_to_afford_loop s cost m = some m := by
  induction cost with
  | nil => rfl
  | cons p rest ih =>
    obtain ⟨cid, amount⟩ := p
    unfold time_to_afford_loop
    rw [if_pos (h (cid, amount) (List.mem_cons_self _ _))]
    exact ih (fun q hq => h q (List.mem_cons_of_mem _ hq))

/-- C8 (amended): for elements whose computed cost map is non-empty,
`compute_time_to_afford` returns `none` exactly when some unmet cost
currency has rate ≤ 0; otherwise it returns a non-negative time, and 0
exactly when the whole cost is already met now.  (Elements with an empty
cost map — free or unknown — also yield `none`; see the counterexample.) -/
theorem time_to_afford_spec (rt : Runtime) (eid : String)
    (hne : compute_current_cost rt eid ≠ []) :
    (compute_time_to_afford rt eid = none ↔
      ∃ p ∈ compute_current_cost rt eid,
        rt.state.currency_value p.1 < p.2 ∧ rt.state.currency_rate p.1 ≤ 0) ∧
    (∀ t, compute_time_to_afford rt eid = some t → 0 ≤ t) ∧
    ((∀ p ∈ compute_current_cost rt eid,
        rt.state.currency_value p.1 ≥ p.2) →
      compute_time_to_afford rt eid = some 0) := by
  have hemp : (compute_current_cost rt eid).isEmpty = false := by
    cases hcc : compute_current_cost rt eid with
    | nil => exact absurd hcc hne
    | cons p rest => rfl
  unfold compute_time_to_afford
  simp only [hemp, Bool.false_eq_true, if_false]
  exact ⟨time_to_afford_loop_none_iff rt.state _ 0,
    fun t ht => time_to_afford_loop_nonneg rt.state _ 0 le_rfl t ht,
    fun h => time_to_afford_loop_all_met rt.state _ 0 h⟩

/-- Witness for the amended C8 at the unaffordable zero-rate element. -/
theorem time_to_afford_spec_witness :
    compute_time_to_afford rtC8 "exp" = none :=
  (time_to_afford_spec rtC8 "exp" (by decide)).1.mpr
    ⟨("gold", 10), by decide, by decide, by decide⟩

/-- C8 counterexample: element `"free"` has an empty cost map, so its cost
is met right now, yet `compute_time_to_afford` answers `none` ("never"). -/
theorem time_to_afford_counterexample :
    (dC8.get_element "free").isSome = true ∧
    compute_current_cost rtC8 "free" = [] ∧
    compute_time_to_afford rtC8 "free" = none := by
  refine ⟨rfl, rfl, rfl⟩

/-! ## Counterexamples: C3, C4, C5 -/

/-- C3 counterexample: a prestige layer whose explicit reset list names the
persistent currency `"gems"` resets it anyway — the persistence flag is
honoured only by the `all_non_persistent` sentinel, not by explicit lists. -/
theorem prestige_persistent_counterexample :
    (dC3.get_currency "gems").map (fun c => c.persistent) = some true ∧
    sC3.currency_value "gems" = 100 ∧
    (trigger_prestige rtC3 "asc").1.success = true ∧
    "gems" ∈ (trigger_prestige rtC3 "asc").1.currencies_reset ∧
    (trigger_prestige rtC3 "asc").2.state.currency_value "gems" = 0 := by
  refine ⟨rfl, rfl, rfl, ?_, rfl⟩
  decide

/-- C4 counterexample: after a successful speculative purchase and its undo,
the element's `affordable` flag keeps its post-purchase value `false`
although it was `true` before — the round trip is not bit-for-bit. -/
theorem greedy_roi_probe_counterexample :
    (try_purchase rtC4 "m").1 = true ∧
    (dictGet rtC4.state.elements "m").map (fun e => e.affordable) =
      some true ∧
    (dictGet (greedy_roi_probe rtC4 "m").state.elements "m").map
      (fun e => e.affordable) = some false ∧
    (greedy_roi_probe rtC4 "m").state ≠ rtC4.state := by
  refine ⟨rfl, rfl, rfl, ?_⟩
  decide

/-- C5 counterexample: a click target with base value −1 makes
`process_click` decrease the cumulative total_earned of `"gold"`. -/
theorem total_earned_click_counterexample :
    rtC5.state.total_earned_of "gold" = 5 ∧
    (process_click rtC5 "gold").2.state.total_earned_of "gold" = 4 := by
  exact ⟨rfl, rfl⟩

/-! ## Frame and fold lemmas for the runtime operations -/

@[simp]
theorem nonCurrency_updateCurrency (s : GameState) (id : String)
    (f : CurrencyState → CurrencyState) :
    nonCurrency (s.updateCurrency id f) = nonCurrency s := rfl

@[simp]
theorem nonElements_updateElement (s : GameState) (id : String)
    (f : ElementState → ElementState) :
    nonElements (s.updateElement id f) = nonElements s := rfl

theorem foldl_deduct_currencies (cost : List (String × Rat)) (s : GameState)
    (cid : String) :
    dictGet (cost.foldl (fun s p =>
        s.updateCurrency p.1 (fun cs =>
          { cs with current := cs.current - p.2 })) s).currencies cid =
      (dictGet s.currencies cid).map
        (fun cs => { cs with current := cs.current - sumFor cost cid }) := by
  induction cost generalizing s with
  | nil =>
    simp only [List.foldl_nil, sumFor]
    cases dictGet s.currencies cid with
    | none => rfl
    | some cs => simp
  | cons p rest ih =>
    rw [List.foldl_cons, ih, updateCurrency_currencies, dictGet_updateKey]
    by_cases h : cid = p.1
    · subst h
      rw [if_pos rfl]
      cases dictGet s.currencies p.1 with
      | none => simp [sumFor]
      | some cs => simp [sumFor, sub_sub]
    · rw [if_neg h]
      have h2 : ¬ p.1 = cid := fun hc => h hc.symm
      cases dictGet s.currencies cid with
      | none => simp [sumFor]
      | some cs => simp [sumFor, h2]

theorem foldl_deduct_frame (cost : List (String × Rat)) (s : GameState) :
    nonCurrency (cost.foldl (fun s p =>
        s.updateCurrency p.1 (fun cs =>
          { cs with current := cs.current - p.2 })) s) = nonCurrency s := by
  induction cost generalizing s with
  | nil => rfl
  | cons p rest ih => rw [List.foldl_cons, ih]; rfl

theorem foldl_refund_currencies (cost : List (String × Rat)) (s : GameState)
    (cid : String) :
    dictGet (cost.foldl (fun s p =>
        s.updateCurrency p.1 (fun cs =>
          { cs with current := cs.current + p.2 })) s).currencies cid =
      (dictGet s.currencies cid).map
        (fun cs => { cs with current := cs.current + sumFor cost cid }) := by
  induction cost generalizing s with
  | nil =>
    simp only [List.foldl_nil, sumFor]
    cases dictGet s.currencies cid with
    | none => rfl
    | some cs => simp
  | cons p rest ih =>
    rw [List.foldl_cons, ih, updateCurrency_currencies, dictGet_updateKey]
    by_cases h : cid = p.1
    · subst h
      rw [if_pos rfl]
      cases dictGet s.currencies p.1 with
      | none => simp [sumFor]
      | some cs => simp [sumFor, add_assoc]
    · rw [if_neg h]
      have h2 : ¬ p.1 = cid := fun hc => h hc.symm
      cases dictGet s.currencies cid with
      | none => simp [sumFor]
      | some cs => simp [sumFor, h2]

theorem foldl_refund_frame (cost : List (String × Rat)) (s : GameState) :
    nonCurrency (cost.foldl (fun s p =>
        s.updateCurrency p.1 (fun cs =>
          { cs with current := cs.current + p.2 })) s) = nonCurrency s := by
  induction cost generalizing s with
  | nil => rfl
  | cons p rest ih => rw [List.foldl_cons, ih]; rfl

theorem foldl_set_rate_frame (rates : List (String × Rat)) (s : GameState) :
    nonCurrency (rates.foldl (fun s p =>
        s.updateCurrency p.1 (fun cs => { cs with current_rate := p.2 })) s) =
      nonCurrency s := by
  induction rates generalizing s with
  | nil => rfl
  | cons p rest ih => rw [List.foldl_cons, ih]; rfl

theorem foldl_set_rate_not_mem (rates : List (String × Rat)) (s : GameState)
    (cid : String) (h : cid ∉ rates.map (fun p => p.1)) :
    dictGet (rates.foldl (fun s p =>
        s.updateCurrency p.1 (fun cs =>
          { cs with current_rate := p.2 })) s).currencies cid =
      dictGet s.currencies cid := by
  induction rates generalizing s with
  | nil => rfl
  | cons p rest ih =>
    rw [List.map_cons, List.mem_cons] at h
    push_neg at h
    rw [List.foldl_cons, ih _ h.2, updateCurrency_currencies,
        dictGet_updateKey, if_neg h.1]

theorem foldl_set_rate_mem (rates : List (String × Rat)) (s : GameState)
    (cid : String) (r : Rat) (hnd : (rates.map (fun p => p.1)).Nodup)
    (hmem : (cid, r) ∈ rates) :
    dictGet (rates.foldl (fun s p =>
        s.updateCurrency p.1 (fun cs =>
          { cs with current_rate := p.2 })) s).currencies cid =
      (dictGet s.currencies cid).map
        (fun cs => { cs with current_rate := r }) := by
  induction rates generalizing s with
  | nil => cases hmem
  | cons p rest ih =>
    rw [List.map_cons, List.nodup_cons] at hnd
    rw [List.foldl_cons]
    rcases List.mem_cons.mp hmem with hm | hm
    · have hp1 : p.1 = cid := by rw [← hm]
      have hp2 : p.2 = r := by rw [← hm]
      have hnot : cid ∉ rest.map (fun p => p.1) := by
        rw [← hp1]; exact hnd.1
      rw [foldl_set_rate_not_mem rest _ cid hnot, updateCurrency_currencies,
          dictGet_updateKey, if_pos hp1.symm, hp2, hp1]
    · have hp1 : ¬ cid = p.1 := by
        intro hc
        exact hnd.1 (hc ▸ (List.mem_map.mpr ⟨(cid, r), hm, rfl⟩))
      rw [ih _ hnd.2 hm, updateCurrency_currencies, dictGet_updateKey,
          if_neg hp1]

theorem update_element_statuses_frame (d : GameDefinition) (s : GameState) :
    nonElements (update_element_statuses d s) = nonElements s := by
  unfold update_element_statuses
  induction d.elements generalizing s with
  | nil => rfl
  | cons edef rest ih =>
    rw [List.foldl_cons]
    cases dictGet s.elements edef.id with
    | none => exact ih s
    | some es =>
      rw [ih]
      rfl

theorem proj_updateKey_available (m : List (String × ElementState))
    (k k2 : String) (x : Bool) :
    (dictGet (updateKey m k (fun e => { e with available := x })) k2).map
        (fun e => (e.count, e.unlocked)) =
      (dictGet m k2).map (fun e => (e.count, e.unlocked)) :=
  dictGet_updateKey_proj m k k2 _ _ (fun _ => rfl)

theorem proj_updateKey_affordable (m : List (String × ElementState))
    (k k2 : String) (x : Bool) :
    (dictGet (updateKey m k (fun e => { e with affordable := x })) k2).map
        (fun e => (e.count, e.unlocked)) =
      (dictGet m k2).map (fun e => (e.count, e.unlocked)) :=
  dictGet_updateKey_proj m k k2 _ _ (fun _ => rfl)

theorem update_element_statuses_count_unlocked (d : GameDefinition)
    (s : GameState) (eid : String) :
    (dictGet (update_element_statuses d s).elements eid).map
        (fun e => (e.count, e.unlocked)) =
      (dictGet s.elements eid).map (fun e => (e.count, e.unlocked)) := by
  unfold update_element_statuses
  induction d.elements generalizing s with
  | nil => rfl
  | cons edef rest ih =>
    rw [List.foldl_cons]
    cases hes : dictGet s.elements edef.id with
    | none => exact ih s
    | some es =>
      rw [ih]
      simp only [updateElement_elements]
      rw [proj_updateKey_affordable, proj_updateKey_available]

theorem proj_updateKey_set_rate (m : List (String × CurrencyState))
    (k k2 : String) (x : Rat) :
    (dictGet (updateKey m k (fun cs => { cs with current_rate := x })) k2).map
        (fun c => (c.current, c.total_earned)) =
      (dictGet m k2).map (fun c => (c.current, c.total_earned)) :=
  dictGet_updateKey_proj m k k2 _ _ (fun _ => rfl)

theorem foldl_rate_write_frame {β : Type} (l : List β) (key : β → String)
    (g : GameState → β → Rat) (s : GameState) :
    nonCurrency (l.foldl (fun s b => s.updateCurrency (key b) (fun cs =>
        { cs with current_rate := g s b })) s) = nonCurrency s ∧
    ∀ cid, (dictGet (l.foldl (fun s b => s.updateCurrency (key b) (fun cs =>
          { cs with current_rate := g s b })) s).currencies cid).map
        (fun c => (c.current, c.total_earned)) =
      (dictGet s.currencies cid).map
        (fun c => (c.current, c.total_earned)) := by
  induction l generalizing s with
  | nil => exact ⟨rfl, fun _ => rfl⟩
  | cons b rest ih =>
    rw [List.foldl_cons]
    refine ⟨?_, ?_⟩
    · rw [(ih _).1]; rfl
    · intro cid
      rw [(ih _).2 cid, updateCurrency_currencies, proj_updateKey_set_rate]

theorem recompute_rates_frame (rt : Runtime) :
    (recompute_rates rt).definition = rt.definition ∧
    (recompute_rates rt).dirty = rt.dirty ∧
    nonCurrency (recompute_rates rt).state = nonCurrency rt.state ∧
    ∀ cid, (dictGet (recompute_rates rt).state.currencies cid).map
        (fun c => (c.current, c.total_earned)) =
      (dictGet rt.state.currencies cid).map
        (fun c => (c.current, c.total_earned)) := by
  refine ⟨rfl, rfl, ?_, ?_⟩
  · exact (foldl_rate_write_frame rt.definition.currencies
      (fun cdef => cdef.id)
      (fun s cdef => compute_rate rt.customPipelines cdef.id
        (((dictGet (collect_active_effects rt.definition rt.state).2
            cdef.id).getD []) ++
          (collect_active_effects rt.definition rt.state).1) s)
      rt.state).1
  · exact (foldl_rate_write_frame rt.definition.currencies
      (fun cdef => cdef.id)
      (fun s cdef => compute_rate rt.customPipelines cdef.id
        (((dictGet (collect_active_effects rt.definition rt.state).2
            cdef.id).getD []) ++
          (collect_active_effects rt.definition rt.state).1) s)
      rt.state).2

theorem check_milestones_frame (d : GameDefinition) (s : GameState)
    (h : NoMilestoneCallbacks d) :
    nonMilestones (check_milestones d s) = nonMilestones s := by
  unfold check_milestones
  suffices hgen : ∀ (ms : List MilestoneDef),
      (∀ m ∈ ms, m.on_trigger = none) → ∀ s : GameState,
      nonMilestones (ms.foldl (fun s mdef =>
        if s.has_milestone mdef.id then s
        else
          match mdef.trigger with
          | none => s
          | some t =>
            if t.evaluate s then
              let s := { s with milestones_reached :=
                (dictInsert s.milestones_reached mdef.id s.time_elapsed) }
              match mdef.on_trigger with
              | some f => f s
              | none => s
            else s) s) = nonMilestones s by
    exact hgen d.milestones h s
  intro ms
  induction ms with
  | nil => intro _ s2; rfl
  | cons m rest ih =>
    intro hno s2
    rw [List.foldl_cons,
        ih (fun m2 hm2 => hno m2 (List.mem_cons_of_mem m hm2))]
    have hm := hno m (List.mem_cons_self m rest)
    by_cases h1 : s2.has_milestone m.id = true
    · rw [if_pos h1]
    · rw [if_neg h1]
      cases m.trigger with
      | none => rfl
      | some t =>
        simp only []
        by_cases h2 : t.evaluate s2 = true
        · rw [if_pos h2]
          simp only [hm]
          rfl
        · rw [if_neg h2]

theorem check_milestones_preserves_entry (d : GameDefinition) (s : GameState)
    (mid : String) (t0 : Rat) (h : NoMilestoneCallbacks d)
    (hm : dictGet s.milestones_reached mid = some t0) :
    dictGet (check_milestones d s).milestones_reached mid = some t0 := by
  unfold check_milestones
  suffices hgen : ∀ (ms : List MilestoneDef),
      (∀ m ∈ ms, m.on_trigger = none) → ∀ s : GameState,
      dictGet s.milestones_reached mid = some t0 →
      dictGet ((ms.foldl (fun s mdef =>
        if s.has_milestone mdef.id then s
        else
          match mdef.trigger with
          | none => s
          | some t =>
            if t.evaluate s then
              let s := { s with milestones_reached :=
                (dictInsert s.milestones_reached mdef.id s.time_elapsed) }
              match mdef.on_trigger with
              | some f => f s
              | none => s
            else s) s)).milestones_reached mid = some t0 by
    exact hgen d.milestones h s hm
  intro ms
  induction ms with
  | nil => intro _ s2 hm2; exact hm2
  | cons m rest ih =>
    intro hno s2 hm2
    rw [List.foldl_cons]
    refine ih (fun m2 hmem => hno m2 (List.mem_cons_of_mem m hmem)) _ ?_
    have hmt := hno m (List.mem_cons_self m rest)
    by_cases h1 : s2.has_milestone m.id = true
    · rw [if_pos h1]; exact hm2
    · rw [if_neg h1]
      cases m.trigger with
      | none => exact hm2
      | some t =>
        simp only []
        by_cases h2 : t.evaluate s2 = true
        · rw [if_pos h2]
          simp only [hmt]
          have hne : mid ≠ m.id := by
            intro hc
            rw [has_milestone_iff, ← hc, hm2] at h1
            exact h1 rfl
          show dictGet (dictInsert s2.milestones_reached m.id
            s2.time_elapsed) mid = some t0
          rw [dictGet_dictInsert_ne _ _ _ _ hne]
          exact hm2
        · rw [if_neg h2]; exact hm2

theorem process_auto_clicks_frame (d : GameDefinition) (s : GameState)
    (delta : Rat) :
    nonCurrency (process_auto_clicks d s delta) = nonCurrency s := by
  unfold process_auto_clicks
  have hinner : ∀ (effs : List EffectDef) (s2 : GameState),
      nonCurrency (effs.foldl (fun s eff =>
        if eff.type != EffectType.AUTO_CLICK then s
        else if !eff.is_active s then s
        else
          let clicks_per_sec := eff.resolve s
          let total_clicks := clicks_per_sec * delta
          match d.get_click_target eff.target with
          | none => s
          | some ct =>
            let value := ct.base_value * total_clicks
            match dictGet s.currencies eff.target with
            | none => s
            | some _ =>
              s.updateCurrency eff.target (fun cs =>
                { cs with current := cs.current + value,
                          total_earned := cs.total_earned + value })) s2) =
        nonCurrency s2 := by
    intro effs
    induction effs with
    | nil => intro s2; rfl
    | cons eff rest2 ih2 =>
      intro s2
      rw [List.foldl_cons, ih2]
      repeat' split
      all_goals rfl
  induction d.elements generalizing s with
  | nil => rfl
  | cons edef rest ih =>
    rw [List.foldl_cons, ih]
    by_cases h1 : s.element_count edef.id ≤ 0
    · rw [if_pos h1]
    · rw [if_neg h1]
      exact hinner edef.effects s

theorem apply_immediate_effect_meta (s : GameState) (eff : EffectDef) :
    (apply_immediate_effect s eff).time_elapsed = s.time_elapsed ∧
    (apply_immediate_effect s eff).milestones_reached =
      s.milestones_reached ∧
    (apply_immediate_effect s eff).prestige_counts = s.prestige_counts ∧
    (apply_immediate_effect s eff).run_number = s.run_number := by
  unfold apply_immediate_effect
  repeat' split
  all_goals exact ⟨rfl, rfl, rfl, rfl⟩

theorem apply_immediate_effect_unlocked_mono (s : GameState)
    (eff : EffectDef) (eid : String)
    (h : (dictGet s.elements eid).map (fun e => e.unlocked) = some true) :
    (dictGet (apply_immediate_effect s eff).elements eid).map
      (fun e => e.unlocked) = some true := by
  unfold apply_immediate_effect
  by_cases hg : (eff.type == EffectType.GRANT) = true
  · rw [if_pos hg]
    cases dictGet s.currencies eff.target with
    | none => exact h
    | some cs => exact h
  · rw [if_neg hg]
    by_cases hu : (eff.type == EffectType.UNLOCK) = true
    · rw [if_pos hu]
      cases hd : dictGet s.elements eff.target with
      | none => exact h
      | some es =>
        simp only [updateElement_elements, dictGet_updateKey]
        by_cases he : eid = eff.target
        · rw [if_pos he, hd]
          simp
        · rw [if_neg he]; exact h
    · rw [if_neg hu]; exact h

theorem apply_immediate_effect_total_mono (s : GameState) (eff : EffectDef)
    (cid : String) :
    s.total_earned_of cid ≤
      (apply_immediate_effect s eff).total_earned_of cid := by
  unfold apply_immediate_effect
  by_cases hg : (eff.type == EffectType.GRANT) = true
  · rw [if_pos hg]
    cases hget : dictGet s.currencies eff.target with
    | none => exact le_rfl
    | some cs0 =>
      by_cases he : cid = eff.target
      · subst he
        unfold GameState.total_earned_of
        simp only [updateCurrency_currencies, dictGet_updateKey]
        rw [if_pos trivial, hget]
        show cs0.total_earned ≤
          (if eff.resolve s > 0 then cs0.total_earned + eff.resolve s
           else cs0.total_earned)
        by_cases hpos : eff.resolve s > 0
        · rw [if_pos hpos]
          linarith
        · rw [if_neg hpos]
      · unfold GameState.total_earned_of
        simp only [updateCurrency_currencies, dictGet_updateKey, if_neg he]
        exact le_rfl
  · rw [if_neg hg]
    by_cases hu : (eff.type == EffectType.UNLOCK) = true
    · rw [if_pos hu]
      cases dictGet s.elements eff.target with
      | none => exact le_rfl
      | some es =>
        unfold GameState.total_earned_of
        simp only [updateElement_currencies]
        exact le_rfl
    · rw [if_neg hu]

/-! ## Shape of `try_purchase` -/

theorem try_purchase_cases (rt : Runtime) (eid : String) :
    (try_purchase rt eid).1 = true ∨ try_purchase rt eid = (false, rt) := by
  unfold try_purchase
  cases rt.definition.get_element eid with
  | none => exact Or.inr rfl
  | some edef =>
    dsimp only
    cases dictGet rt.state.elements eid with
    | none => exact Or.inr rfl
    | some es =>
      dsimp only
      by_cases h1 : (match edef.max_count with
          | some m => decide (es.count ≥ m)
          | none => false) = true
      · rw [if_pos h1]; exact Or.inr rfl
      · rw [if_neg h1]
        by_cases h2 : (!es.available && !es.unlocked) = true
        · rw [if_pos h2]; exact Or.inr rfl
        · rw [if_neg h2]
          by_cases h3 : (!edef.purchase_requirements.all
              (fun r => r.evaluate rt.state)) = true
          · rw [if_pos h3]; exact Or.inr rfl
          · rw [if_neg h3]
            by_cases h4 : (!(apply_cost_effects rt.definition rt.state eid
                (edef.cost_scaling.compute edef.base_cost es.count)).all
                  (fun p => decide (rt.state.currency_value p.1 ≥ p.2))) = true
            · rw [if_pos h4]; exact Or.inr rfl
            · rw [if_neg h4]; exact Or.inl rfl

theorem try_purchase_succ_eq (rt : Runtime) (eid : String)
    (edef : ElementDef) (es : ElementState)
    (hget : rt.definition.get_element eid = some edef)
    (hes : dictGet rt.state.elements eid = some es)
    (hsucc : (try_purchase rt eid).1 = true) :
    try_purchase rt eid =
      (true, { rt with
                 state := purchase_success_state rt eid edef es
                 dirty := true }) := by
  unfold try_purchase at hsucc ⊢
  simp only [hget, hes] at hsucc ⊢
  by_cases h1 : (match edef.max_count with
      | some m => decide (es.count ≥ m)
      | none => false) = true
  · rw [if_pos h1] at hsucc; cases hsucc
  · rw [if_neg h1] at hsucc ⊢
    by_cases h2 : (!es.available && !es.unlocked) = true
    · rw [if_pos h2] at hsucc; cases hsucc
    · rw [if_neg h2] at hsucc ⊢
      by_cases h3 : (!edef.purchase_requirements.all
          (fun r => r.evaluate rt.state)) = true
      · rw [if_pos h3] at hsucc; cases hsucc
      · rw [if_neg h3] at hsucc ⊢
        by_cases h4 : (!(apply_cost_effects rt.definition rt.state eid
            (edef.cost_scaling.compute edef.base_cost es.count)).all
              (fun p => decide (rt.state.currency_value p.1 ≥ p.2))) = true
        · rw [if_pos h4] at hsucc; cases hsucc
        · rw [if_neg h4]
          rfl

theorem ues_time (d : GameDefinition) (s : GameState) :
    (update_element_statuses d s).time_elapsed = s.time_elapsed :=
  congrArg (fun t => t.1) (update_element_statuses_frame d s)

theorem ues_currencies (d : GameDefinition) (s : GameState) :
    (update_element_statuses d s).currencies = s.currencies :=
  congrArg (fun t => t.2.1) (update_element_statuses_frame d s)

theorem ues_milestones (d : GameDefinition) (s : GameState) :
    (update_element_statuses d s).milestones_reached =
      s.milestones_reached :=
  congrArg (fun t => t.2.2.1) (update_element_statuses_frame d s)

theorem ues_prestige (d : GameDefinition) (s : GameState) :
    (update_element_statuses d s).prestige_counts = s.prestige_counts :=
  congrArg (fun t => t.2.2.2.1) (update_element_statuses_frame d s)

theorem ues_run (d : GameDefinition) (s : GameState) :
    (update_element_statuses d s).run_number = s.run_number :=
  congrArg (fun t => t.2.2.2.2) (update_element_statuses_frame d s)

theorem deduct_elements (cost : List (String × Rat)) (s : GameState) :
    (cost.foldl (fun s p =>
      s.updateCurrency p.1 (fun cs =>
        { cs with current := cs.current - p.2 })) s).elements = s.elements :=
  congrArg (fun t => t.2.1) (foldl_deduct_frame cost s)

theorem deduct_time (cost : List (String × Rat)) (s : GameState) :
    (cost.foldl (fun s p =>
      s.updateCurrency p.1 (fun cs =>
        { cs with current := cs.current - p.2 })) s).time_elapsed =
      s.time_elapsed :=
  congrArg (fun t => t.1) (foldl_deduct_frame cost s)

theorem deduct_milestones (cost : List (String × Rat)) (s : GameState) :
    (cost.foldl (fun s p =>
      s.updateCurrency p.1 (fun cs =>
        { cs with current := cs.current - p.2 })) s).milestones_reached =
      s.milestones_reached :=
  congrArg (fun t => t.2.2.1) (foldl_deduct_frame cost s)

theorem deduct_prestige (cost : List (String × Rat)) (s : GameState) :
    (cost.foldl (fun s p =>
      s.updateCurrency p.1 (fun cs =>
        { cs with current := cs.current - p.2 })) s).prestige_counts =
      s.prestige_counts :=
  congrArg (fun t => t.2.2.2.1) (foldl_deduct_frame cost s)

theorem deduct_run (cost : List (String × Rat)) (s : GameState) :
    (cost.foldl (fun s p =>
      s.updateCurrency p.1 (fun cs =>
        { cs with current := cs.current - p.2 })) s).run_number =
      s.run_number :=
  congrArg (fun t => t.2.2.2.2) (foldl_deduct_frame cost s)

theorem foldl_immediate_noop (effs : List EffectDef) (s : GameState)
    (h : ∀ eff ∈ effs, eff.phase ≠ EffectPhase.IMMEDIATE) :
    effs.foldl (fun s eff =>
      if eff.phase == EffectPhase.IMMEDIATE then apply_immediate_effect s eff
      else s) s = s := by
  induction effs generalizing s with
  | nil => rfl
  | cons eff rest ih =>
    rw [List.foldl_cons]
    have hb : (eff.phase == EffectPhase.IMMEDIATE) = false :=
      beq_eq_false_iff_ne.mpr (h eff (List.mem_cons_self eff rest))
    rw [if_neg (by rw [hb]; exact Bool.false_ne_true)]
    exact ih s (fun e2 hm => h e2 (List.mem_cons_of_mem eff hm))

/-! ## Claim C1: atomicity of `try_purchase` -/

/-- C1: `try_purchase` is atomic.  On failure (element unknown, at max
count, unavailable and not sticky-unlocked, purchase requirement unmet, or
unaffordable) the runtime — hence every balance, total-earned value, rate,
element count and flag, milestone entry and prestige counter — is returned
unchanged.  On success (stated here for an element without IMMEDIATE-phase
effects and without an `on_purchase` callback, which run after the
transaction), exactly the cost computed by the cost-scaling function at the
pre-purchase count with all active COST_MULT multipliers applied is
deducted from each named currency (total_earned and rates untouched), the
element's count increases by exactly 1, every other element's count and
unlocked flag are unchanged, and the milestone map, prestige counters, run
number and clock are unchanged. -/
theorem try_purchase_atomic (rt : Runtime) (eid : String) :
    ((try_purchase rt eid).1 = false → (try_purchase rt eid).2 = rt) ∧
    (∀ edef es,
      rt.definition.get_element eid = some edef →
      dictGet rt.state.elements eid = some es →
      (∀ eff ∈ edef.effects, eff.phase ≠ EffectPhase.IMMEDIATE) →
      edef.on_purchase = none →
      (try_purchase rt eid).1 = true →
      (∀ cid, dictGet (try_purchase rt eid).2.state.currencies cid =
        (dictGet rt.state.currencies cid).map (fun cs =>
          { cs with current := cs.current -
              sumFor (apply_cost_effects rt.definition rt.state eid
                (edef.cost_scaling.compute edef.base_cost es.count)) cid })) ∧
      ((dictGet (try_purchase rt eid).2.state.elements eid).map
        (fun e => (e.count, e.unlocked)) = some (es.count + 1, es.unlocked)) ∧
      (∀ eid2, eid2 ≠ eid →
        (dictGet (try_purchase rt eid).2.state.elements eid2).map
            (fun e => (e.count, e.unlocked)) =
          (dictGet rt.state.elements eid2).map
            (fun e => (e.count, e.unlocked))) ∧
      (try_purchase rt eid).2.state.time_elapsed = rt.state.time_elapsed ∧
      (try_purchase rt eid).2.state.milestones_reached =
        rt.state.milestones_reached ∧
      (try_purchase rt eid).2.state.prestige_counts =
        rt.state.prestige_counts ∧
      (try_purchase rt eid).2.state.run_number = rt.state.run_number) := by
  constructor
  · intro hf
    rcases try_purchase_cases rt eid with hs | hval
    · rw [hs] at hf; cases hf
    · rw [hval]
  · intro edef es hget hes himm hcb hsucc
    have heq := try_purchase_succ_eq rt eid edef es hget hes hsucc
    rw [heq]
    dsimp only
    unfold purchase_success_state
    rw [hcb]
    dsimp only
    rw [foldl_immediate_noop _ _ himm]
    refine ⟨?_, ?_, ?_, ?_, ?_, ?_, ?_⟩
    · intro cid
      rw [ues_currencies, updateElement_currencies, foldl_deduct_currencies]
    · rw [update_element_statuses_count_unlocked, updateElement_elements,
          dictGet_updateKey, if_pos rfl, deduct_elements, hes]
      rfl
    · intro eid2 hne
      rw [update_element_statuses_count_unlocked, updateElement_elements,
          dictGet_updateKey, if_neg hne, deduct_elements]
    · rw [ues_time, updateElement_time, deduct_time]
    · rw [ues_milestones, updateElement_milestones, deduct_milestones]
    · rw [ues_prestige, updateElement_prestige, deduct_prestige]
    · rw [ues_run, updateElement_run, deduct_run]

/-- Witness for C1: buying `"miner"` (cost 5 gold) from 10 gold succeeds,
deducts exactly the computed cost from gold, and bumps the count 0 → 1. -/
theorem try_purchase_atomic_witness :
    (try_purchase rtW1 "miner").1 = true ∧
    dictGet (try_purchase rtW1 "miner").2.state.currencies "gold" =
      (dictGet rtW1.state.currencies "gold").map (fun cs =>
        { cs with current := cs.current -
            sumFor (apply_cost_effects rtW1.definition rtW1.state "miner"
              (CostScaling.fixed.compute [("gold", 5)] 0)) "gold" }) ∧
    (dictGet (try_purchase rtW1 "miner").2.state.elements "miner").map
      (fun e => (e.count, e.unlocked)) = some (1, false) := by
  have h := (try_purchase_atomic rtW1 "miner").2
    { id := "miner", base_cost := [("gold", 5)] }
    { count := 0, available := true, affordable := true, unlocked := false }
    rfl rfl (by simp) rfl rfl
  exact ⟨rfl, h.1 "gold", h.2.1⟩

/-! ## Claim C3: prestige resets -/

theorem trigger_prestige_succ_eq (rt : Runtime) (lid : String)
    (layer : PrestigeLayerDef) (f : GameState → Rat)
    (hget : rt.definition.get_prestige_layer lid = some layer)
    (hreq : layer.requirements.all (fun r => r.evaluate rt.state) = true)
    (hf : layer.reward_formula = some f)
    (hmin : ¬ (f rt.state < layer.minimum_reward)) :
    trigger_prestige rt lid =
      ({ success := true
         reward_amount := f rt.state
         currencies_reset :=
           resolve_reset_list rt.definition layer.currencies_reset .currency
         elements_reset :=
           resolve_reset_list rt.definition layer.elements_reset .element },
       { rt with
           state := prestige_success_state rt lid layer (f rt.state)
           dirty := true }) := by
  unfold trigger_prestige
  simp only [hget, hreq, Bool.not_true, Bool.false_eq_true, if_false, hf]
  rw [if_neg hmin]
  rfl

/-- If an entry holds the reset record, the currency-reset loop keeps it
(the per-entry update is constant, so re-resetting is idempotent). -/
theorem foldl_reset_currency_keeps (d : GameDefinition) (ids : List String)
    (s : GameState) (cid : String)
    (hv : dictGet s.currencies cid = some (resetRec d cid)) :
    dictGet ((ids.foldl (fun s cid2 =>
      match dictGet s.currencies cid2 with
      | none => s
      | some _ =>
        let init : Rat := match d.get_currency cid2 with
          | some cdef => cdef.initial_value
          | none => 0
        s.updateCurrency cid2 (fun cs =>
          { cs with current := init, total_earned := init,
                    current_rate := 0 })) s)).currencies cid =
      some (resetRec d cid) := by
  induction ids generalizing s with
  | nil => exact hv
  | cons k rest ih =>
    rw [List.foldl_cons]
    by_cases hk : cid = k
    · subst hk
      rw [hv]
      refine ih _ ?_
      simp only [updateCurrency_currencies, dictGet_updateKey, if_pos rfl,
        hv, Option.map_some]
      rfl
    · refine ih _ ?_
      cases hd : dictGet s.currencies k with
      | none => exact hv
      | some w =>
        simp only [updateCurrency_currencies, dictGet_updateKey, if_neg hk]
        exact hv

/-- A currency not named in the reset list is untouched by the loop. -/
theorem foldl_reset_currency_not_mem (d : GameDefinition)
    (ids : List String) (s : GameState) (cid : String) (h : cid ∉ ids) :
    dictGet ((ids.foldl (fun s cid2 =>
      match dictGet s.currencies cid2 with
      | none => s
      | some _ =>
        let init : Rat := match d.get_currency cid2 with
          | some cdef => cdef.initial_value
          | none => 0
        s.updateCurrency cid2 (fun cs =>
          { cs with current := init, total_earned := init,
                    current_rate := 0 })) s)).currencies cid =
      dictGet s.currencies cid := by
  induction ids generalizing s with
  | nil => rfl
  | cons k rest ih =>
    rw [List.mem_cons] at h
    push_neg at h
    rw [List.foldl_cons, ih _ h.2]
    cases hd : dictGet s.currencies k with
    | none => rfl
    | some w =>
      simp only [updateCurrency_currencies, dictGet_updateKey, if_neg h.1]

/-- A currency named in the reset list, present in the state, ends the loop
holding the reset record. -/
theorem foldl_reset_currency_mem (d : GameDefinition) (ids : List String)
    (s : GameState) (cid : String) (v : CurrencyState)
    (hmem : cid ∈ ids) (hv : dictGet s.currencies cid = some v) :
    dictGet ((ids.foldl (fun s cid2 =>
      match dictGet s.currencies cid2 with
      | none => s
      | some _ =>
        let init : Rat := match d.get_currency cid2 with
          | some cdef => cdef.initial_value
          | none => 0
        s.updateCurrency cid2 (fun cs =>
          { cs with current := init, total_earned := init,
                    current_rate := 0 })) s)).currencies cid =
      some (resetRec d cid) := by
  induction ids generalizing s v with
  | nil => cases hmem
  | cons k rest ih =>
    rw [List.foldl_cons]
    by_cases hk : cid = k
    · subst hk
      rw [hv]
      refine foldl_reset_currency_keeps d rest _ cid ?_
      simp only [updateCurrency_currencies, dictGet_updateKey, if_pos rfl,
        hv, Option.map_some]
      rfl
    · rcases List.mem_cons.mp hmem with hc | hc
      · exact absurd hc hk
      · cases hd : dictGet s.currencies k with
        | none => exact ih _ v hc hv
        | some w =>
          refine ih _ v hc ?_
          simp only [updateCurrency_currencies, dictGet_updateKey,
            if_neg hk]
          exact hv

/-- The currency-reset loop only touches currencies. -/
theorem foldl_reset_currency_frame (d : GameDefinition) (ids : List String)
    (s : GameState) :
    nonCurrency ((ids.foldl (fun s cid2 =>
      match dictGet s.currencies cid2 with
      | none => s
      | some _ =>
        let init : Rat := match d.get_currency cid2 with
          | some cdef => cdef.initial_value
          | none => 0
        s.updateCurrency cid2 (fun cs =>
          { cs with current := init, total_earned := init,
                    current_rate := 0 })) s)) = nonCurrency s := by
  induction ids generalizing s with
  | nil => rfl
  | cons k rest ih =>
    rw [List.foldl_cons, ih]
    cases dictGet s.currencies k with
    | none => rfl
    | some w => rfl

/-- The element-reset loop only touches elements. -/
theorem foldl_reset_element_frame (d : GameDefinition) (ids : List String)
    (s : GameState) :
    nonElements ((ids.foldl (fun s eid2 =>
      match dictGet s.elements eid2 with
      | none => s
      | some _ =>
        match d.get_element eid2 with
        | none => s
        | some edef =>
          if edef.tags.contains "persistent" then s
          else s.updateElement eid2 (fun es =>
            { es with count := 0, available := false,
                      affordable := false })) s)) = nonElements s := by
  induction ids generalizing s with
  | nil => rfl
  | cons k rest ih =>
    rw [List.foldl_cons, ih]
    cases dictGet s.elements k with
    | none => rfl
    | some w =>
      dsimp only
      cases d.get_element k with
      | none => rfl
      | some edef =>
        dsimp only
        by_cases ht : edef.tags.contains "persistent" = true
        · rw [if_pos ht]
        · rw [if_neg ht]
          rfl

/-- The element-reset loop never touches an element whose definition is
tagged persistent. -/
theorem foldl_reset_element_persistent (d : GameDefinition)
    (ids : List String) (s : GameState) (eid : String) (edef : ElementDef)
    (hg : d.get_element eid = some edef)
    (ht : edef.tags.contains "persistent" = true) :
    dictGet ((ids.foldl (fun s eid2 =>
      match dictGet s.elements eid2 with
      | none => s
      | some _ =>
        match d.get_element eid2 with
        | none => s
        | some edef2 =>
          if edef2.tags.contains "persistent" then s
          else s.updateElement eid2 (fun es =>
            { es with count := 0, available := false,
                      affordable := false })) s)).elements eid =
      dictGet s.elements eid := by
  induction ids generalizing s with
  | nil => rfl
  | cons k rest ih =>
    rw [List.foldl_cons, ih]
    by_cases hk : k = eid
    · subst hk
      cases hd : dictGet s.elements k with
      | none => exact hd
      | some w =>
        dsimp only
        rw [hg]
        dsimp only
        rw [if_pos ht]
        exact hd
    · cases dictGet s.elements k with
      | none => rfl
      | some w =>
        dsimp only
        cases d.get_element k with
        | none => rfl
        | some edef2 =>
          dsimp only
          by_cases ht2 : edef2.tags.contains "persistent" = true
          · rw [if_pos ht2]
          · rw [if_neg ht2]
            simp only [updateElement_elements, dictGet_updateKey,
              if_neg (fun hc : eid = k => hk hc.symm)]

theorem byId_eq_map {α : Type} (gid : α → String) (l : List α)
    (h : (l.map gid).Nodup) : byId gid l = l.map (fun a => (gid a, a)) := by
  unfold byId
  suffices hgen : ∀ (l2 : List α) (acc : List (String × α)),
      (∀ a ∈ l2, ∀ p ∈ acc, p.1 ≠ gid a) → (l2.map gid).Nodup →
      l2.foldl (fun m a => dictInsert m (gid a) a) acc =
        acc ++ l2.map (fun a => (gid a, a)) by
    have := hgen l [] (by intro a _ p hp; cases hp) h
    simpa using this
  intro l2
  induction l2 with
  | nil => intro acc _ _; simp
  | cons a rest ih =>
    intro acc hfresh hnd
    rw [List.map_cons, List.nodup_cons] at hnd
    rw [List.foldl_cons]
    have hany : acc.any (fun p => p.1 == gid a) = false := by
      rw [List.any_eq_false]
      intro p hp
      rw [beq_eq_false_iff_ne.mpr (hfresh a (List.mem_cons_self a rest) p hp)]
      exact Bool.false_ne_true
    have hins : dictInsert acc (gid a) a = acc ++ [(gid a, a)] := by
      unfold dictInsert
      rw [if_neg (by rw [hany]; exact Bool.false_ne_true)]
    rw [hins, ih (acc ++ [(gid a, a)]) ?_ hnd.2]
    · simp
    · intro b hb p hp
      rcases List.mem_append.mp hp with hp | hp
      · exact hfresh b (List.mem_cons_of_mem a hb) p hp
      · rw [List.mem_singleton] at hp
        subst hp
        intro hc
        apply hnd.1
        rw [show gid a = gid b from hc]
        exact List.mem_map.mpr ⟨b, hb, rfl⟩

theorem dictGet_map_pair {α : Type} (gid : α → String) (l : List α)
    (k : String) :
    dictGet (l.map (fun a => (gid a, a))) k =
      l.find? (fun a => gid a == k) := by
  induction l with
  | nil => rfl
  | cons a rest ih =>
    rw [List.map_cons, dictGet_cons]
    by_cases h : gid a = k
    · have hb : (gid a == k) = true := beq_iff_eq.mpr h
      simp [List.find?, hb, h]
    · have hb : (gid a == k) = false := beq_eq_false_iff_ne.mpr h
      simp [List.find?, hb, h, ih]

theorem get_currency_mem (d : GameDefinition) (cid : String)
    (cdef : CurrencyDef)
    (hnd : (d.currencies.map (fun c => c.id)).Nodup)
    (hg : d.get_currency cid = some cdef) :
    cdef ∈ d.currencies ∧ cdef.id = cid := by
  unfold GameDefinition.get_currency at hg
  rw [byId_eq_map CurrencyDef.id d.currencies hnd, dictGet_map_pair] at hg
  refine ⟨List.mem_of_find?_eq_some hg, ?_⟩
  have h2 := List.find?_some hg
  exact beq_iff_eq.mp h2

theorem not_mem_sentinel_reset (d : GameDefinition) (cid : String)
    (cdef : CurrencyDef)
    (hnd : (d.currencies.map (fun c => c.id)).Nodup)
    (hg : d.get_currency cid = some cdef) (hp : cdef.persistent = true) :
    cid ∉ resolve_reset_list d (ResetSpec.str "all_non_persistent")
      .currency := by
  intro hmem
  unfold resolve_reset_list at hmem
  dsimp only at hmem
  rw [if_pos rfl] at hmem
  rcases List.mem_map.mp hmem with ⟨c, hc, hcid⟩
  rcases List.mem_filter.mp hc with ⟨hcl, hcp⟩
  obtain ⟨hmemd, hid⟩ := get_currency_mem d cid cdef hnd hg
  have hceq : c = cdef := by
    have hinj := List.inj_on_of_nodup_map hnd
    exact hinj hcl hmemd (by rw [hcid, hid])
  rw [hceq] at hcp
  rw [hp] at hcp
  cases hcp

theorem reset_element_fold_currencies (d : GameDefinition)
    (ids : List String) (s : GameState) :
    ((ids.foldl (fun s eid2 =>
      match dictGet s.elements eid2 with
      | none => s
      | some _ =>
        match d.get_element eid2 with
        | none => s
        | some edef =>
          if edef.tags.contains "persistent" then s
          else s.updateElement eid2 (fun es =>
            { es with count := 0, available := false,
                      affordable := false })) s)).currencies =
      s.currencies :=
  congrArg (fun t => t.2.1) (foldl_reset_element_frame d ids s)

theorem reset_currency_fold_elements (d : GameDefinition)
    (ids : List String) (s : GameState) :
    ((ids.foldl (fun s cid2 =>
      match dictGet s.currencies cid2 with
      | none => s
      | some _ =>
        let init : Rat := match d.get_currency cid2 with
          | some cdef => cdef.initial_value
          | none => 0
        s.updateCurrency cid2 (fun cs =>
          { cs with current := init, total_earned := init,
                    current_rate := 0 })) s)).elements = s.elements :=
  congrArg (fun t => t.2.1) (foldl_reset_currency_frame d ids s)

/-- C3 (amended): on every successful `trigger_prestige`, each currency in
the resolved reset list — other than the layer's prestige currency, which
receives the reward after the reset — ends with balance and total-earned
set to its definition's initial value (not zero) and rate 0; under the
`all_non_persistent` sentinel, persistent currencies (other than the
prestige target) are untouched; and elements tagged persistent keep their
count and sticky-unlock flag under either reset-spec form.  The persistence
flag of a currency is honoured only by the sentinel: an explicit reset list
naming a persistent currency resets it (see the counterexample). -/
theorem trigger_prestige_reset_spec (rt : Runtime) (lid : String)
    (layer : PrestigeLayerDef) (f : GameState → Rat)
    (hget : rt.definition.get_prestige_layer lid = some layer)
    (hreq : layer.requirements.all (fun r => r.evaluate rt.state) = true)
    (hf : layer.reward_formula = some f)
    (hmin : ¬ (f rt.state < layer.minimum_reward))
    (hnd : (rt.definition.currencies.map (fun c => c.id)).Nodup) :
    (trigger_prestige rt lid).1.success = true ∧
    (∀ cid v,
      cid ∈ resolve_reset_list rt.definition layer.currencies_reset
        .currency →
      cid ≠ layer.prestige_currency →
      dictGet rt.state.currencies cid = some v →
      dictGet (trigger_prestige rt lid).2.state.currencies cid =
        some (resetRec rt.definition cid)) ∧
    (layer.currencies_reset = ResetSpec.str "all_non_persistent" →
      ∀ cid cdef, rt.definition.get_currency cid = some cdef →
        cdef.persistent = true → cid ≠ layer.prestige_currency →
        dictGet (trigger_prestige rt lid).2.state.currencies cid =
          dictGet rt.state.currencies cid) ∧
    (∀ eid edef, rt.definition.get_element eid = some edef →
      edef.tags.contains "persistent" = true →
      (dictGet (trigger_prestige rt lid).2.state.elements eid).map
          (fun e => (e.count, e.unlocked)) =
        (dictGet rt.state.elements eid).map
          (fun e => (e.count, e.unlocked))) := by
  have heq := trigger_prestige_succ_eq rt lid layer f hget hreq hf hmin
  rw [heq]
  dsimp only
  unfold prestige_success_state
  dsimp only
  refine ⟨rfl, ?_, ?_, ?_⟩
  · intro cid v hmem hne hv
    rw [ues_currencies]
    dsimp only
    rw [updateCurrency_currencies, dictGet_updateKey, if_neg hne,
        reset_element_fold_currencies]
    exact foldl_reset_currency_mem rt.definition _ rt.state cid v hmem hv
  · intro hspec cid cdef hg hp hne
    have hnotmem := not_mem_sentinel_reset rt.definition cid cdef hnd hg hp
    rw [ues_currencies]
    dsimp only
    rw [updateCurrency_currencies, dictGet_updateKey, if_neg hne,
        reset_element_fold_currencies, hspec]
    exact foldl_reset_currency_not_mem rt.definition _ rt.state cid hnotmem
  · intro eid edef hg ht
    rw [update_element_statuses_count_unlocked]
    dsimp only
    rw [updateCurrency_elements,
        foldl_reset_element_persistent rt.definition _ _ eid edef hg ht,
        reset_currency_fold_elements]

/-- Witness for the amended C3 at the sentinel-based layer of `dW3`: gold
(non-persistent) is reset to its initial value 0 with rate 0 before the
reward is granted, persistent gems keep balance 7, and the persistent
altar keeps count 3. -/
theorem trigger_prestige_reset_spec_witness :
    (trigger_prestige rtW3 "asc").1.success = true ∧
    dictGet (trigger_prestige rtW3 "asc").2.state.currencies "gems" =
      dictGet rtW3.state.currencies "gems" ∧
    (dictGet (trigger_prestige rtW3 "asc").2.state.elements "altar").map
        (fun e => (e.count, e.unlocked)) =
      (dictGet rtW3.state.elements "altar").map
        (fun e => (e.count, e.unlocked)) := by
  have h := trigger_prestige_reset_spec rtW3 "asc" layerW3 (fun _ => 1)
    rfl rfl rfl (by norm_num [layerW3]) (by decide)
  refine ⟨h.1, ?_, ?_⟩
  · exact h.2.2.1 rfl "gems" { id := "gems", persistent := true } rfl rfl
      (by decide)
  · exact h.2.2.2 "altar" altarW3 rfl rfl

/-! ## Frame lemmas for `tick` and `process_click`, and definition-lookup
membership -/

theorem tick_production_frame (d : GameDefinition) (delta : Rat)
    (cds : List CurrencyDef) (s : GameState) :
    nonCurrency (cds.foldl (fun s cdef =>
      match dictGet s.currencies cdef.id with
      | none => s
      | some cs =>
        if cs.current_rate = 0 then s
        else
          let earned := cs.current_rate * delta
          let s := s.updateCurrency cdef.id (fun c =>
            { c with current := c.current + earned,
                     total_earned := if earned > 0 then
                         c.total_earned + earned
                       else c.total_earned })
          match resolve_cap d s cdef.id with
          | none => s
          | some cap =>
            s.updateCurrency cdef.id (fun c =>
              if cap < c.current then { c with current := cap } else c)) s) =
      nonCurrency s := by
  induction cds generalizing s with
  | nil => rfl
  | cons cdef rest ih =>
    rw [List.foldl_cons, ih]
    dsimp only
    repeat' split
    all_goals rfl

theorem process_click_frame (rt : Runtime) (cid : String) :
    nonCurrency (process_click rt cid).2.state = nonCurrency rt.state ∧
    (process_click rt cid).2.definition = rt.definition ∧
    (process_click rt cid).2.dirty = rt.dirty ∧
    (process_click rt cid).2.subsystems = rt.subsystems := by
  unfold process_click
  split
  · exact ⟨rfl, rfl, rfl, rfl⟩
  · dsimp only
    split
    all_goals exact ⟨rfl, rfl, rfl, rfl⟩

theorem dictGet_values_mem {α : Type} (m : List (String × α)) (k : String)
    (v : α) (h : dictGet m k = some v) : ∃ p ∈ m, p.2 = v := by
  unfold dictGet at h
  cases hf : m.find? (fun p => p.1 == k) with
  | none => rw [hf] at h; cases h
  | some p =>
    rw [hf] at h
    exact ⟨p, List.mem_of_find?_eq_some hf, by
      simpa using congrArg id h⟩

theorem dictInsert_values {α : Type} (m : List (String × α)) (k : String)
    (v : α) (p : String × α) (hp : p ∈ dictInsert m k v) :
    p.2 = v ∨ p ∈ m := by
  unfold dictInsert at hp
  by_cases hany : m.any (fun q => q.1 == k) = true
  · rw [if_pos hany] at hp
    rcases List.mem_map.mp hp with ⟨q, hq, hqe⟩
    by_cases hqk : (q.1 == k) = true
    · rw [if_pos hqk] at hqe
      left
      rw [← hqe]
    · rw [if_neg hqk] at hqe
      right
      rw [← hqe]
      exact hq
  · rw [if_neg hany] at hp
    rcases List.mem_append.mp hp with hp | hp
    · exact Or.inr hp
    · rw [List.mem_singleton] at hp
      left
      rw [hp]

theorem byId_values_mem {α : Type} (gid : α → String) (l : List α)
    (p : String × α) (hp : p ∈ byId gid l) : p.2 ∈ l := by
  unfold byId at hp
  suffices hgen : ∀ (l2 : List α) (acc : List (String × α)),
      ∀ q ∈ l2.foldl (fun m a => dictInsert m (gid a) a) acc,
        q.2 ∈ l2 ∨ q ∈ acc by
    rcases hgen l [] p hp with h | h
    · exact h
    · cases h
  intro l2
  induction l2 with
  | nil => intro acc q hq; exact Or.inr hq
  | cons a rest ih =>
    intro acc q hq
    rw [List.foldl_cons] at hq
    rcases ih (dictInsert acc (gid a) a) q hq with h | h
    · exact Or.inl (List.mem_cons_of_mem a h)
    · rcases dictInsert_values acc (gid a) a q h with h2 | h2
      · exact Or.inl (h2 ▸ List.mem_cons_self a rest)
      · exact Or.inr h2

theorem get_element_mem (d : GameDefinition) (eid : String)
    (edef : ElementDef) (h : d.get_element eid = some edef) :
    edef ∈ d.elements := by
  unfold GameDefinition.get_element at h
  rcases dictGet_values_mem _ _ _ h with ⟨p, hp, hpe⟩
  have := byId_values_mem ElementDef.id d.elements p hp
  rw [hpe] at this
  exact this

/-! ## Claim C10: the sticky-unlock latch -/

theorem proj_unlocked_of_pair {a b : Option ElementState}
    (h : a.map (fun e => (e.count, e.unlocked)) =
      b.map (fun e => (e.count, e.unlocked))) :
    a.map (fun e => e.unlocked) = b.map (fun e => e.unlocked) := by
  cases a with
  | none =>
    cases b with
    | none => rfl
    | some y => cases h
  | some x =>
    cases b with
    | none => cases h
    | some y =>
      simp only [Option.map_some'] at h ⊢
      have h2 : x.unlocked = y.unlocked :=
        congrArg Prod.snd (Option.some.inj h)
      rw [h2]

theorem ues_unlocked (d : GameDefinition) (s : GameState) (eid : String) :
    (dictGet (update_element_statuses d s).elements eid).map
        (fun e => e.unlocked) =
      (dictGet s.elements eid).map (fun e => e.unlocked) :=
  proj_unlocked_of_pair (update_element_statuses_count_unlocked d s eid)

theorem recompute_rates_elements (rt : Runtime) :
    (recompute_rates rt).state.elements = rt.state.elements :=
  congrArg (fun t => t.2.1) (recompute_rates_frame rt).2.2.1

theorem recompute_rates_subsystems (rt : Runtime) :
    (recompute_rates rt).subsystems = rt.subsystems := rfl

theorem pac_elements (d : GameDefinition) (s : GameState) (delta : Rat) :
    (process_auto_clicks d s delta).elements = s.elements :=
  congrArg (fun t => t.2.1) (process_auto_clicks_frame d s delta)

theorem cm_elements (d : GameDefinition) (s : GameState)
    (h : NoMilestoneCallbacks d) :
    (check_milestones d s).elements = s.elements :=
  congrArg (fun t => t.2.2.1) (check_milestones_frame d s h)

theorem cm_currencies (d : GameDefinition) (s : GameState)
    (h : NoMilestoneCallbacks d) :
    (check_milestones d s).currencies = s.currencies :=
  congrArg (fun t => t.2.1) (check_milestones_frame d s h)

theorem tick_production_elements (d : GameDefinition) (delta : Rat)
    (cds : List CurrencyDef) (s : GameState) :
    (cds.foldl (fun s cdef =>
      match dictGet s.currencies cdef.id with
      | none => s
      | some cs =>
        if cs.current_rate = 0 then s
        else
          let earned := cs.current_rate * delta
          let s := s.updateCurrency cdef.id (fun c =>
            { c with current := c.current + earned,
                     total_earned := if earned > 0 then
                         c.total_earned + earned
                       else c.total_earned })
          match resolve_cap d s cdef.id with
          | none => s
          | some cap =>
            s.updateCurrency cdef.id (fun c =>
              if cap < c.current then { c with current := cap } else c)) s
      ).elements = s.elements :=
  congrArg (fun t => t.2.1) (tick_production_frame d delta cds s)

theorem pc_elements (rt : Runtime) (cid : String) :
    (process_click rt cid).2.state.elements = rt.state.elements :=
  congrArg (fun t => t.2.1) (process_click_frame rt cid).1

theorem set_rate_elements (rates : List (String × Rat)) (s : GameState) :
    (rates.foldl (fun s p =>
      s.updateCurrency p.1 (fun cs => { cs with current_rate := p.2 })) s
      ).elements = s.elements :=
  congrArg (fun t => t.2.1) (foldl_set_rate_frame rates s)

theorem refund_elements (cost : List (String × Rat)) (s : GameState) :
    (cost.foldl (fun s p =>
      s.updateCurrency p.1 (fun cs =>
        { cs with current := cs.current + p.2 })) s).elements = s.elements :=
  congrArg (fun t => t.2.1) (foldl_refund_frame cost s)

/-- The unlocked-flag preservation through `tick` (given no milestone
callbacks and no subsystems). -/
theorem tick_unlocked (rt : Runtime) (delta : Rat) (eid : String)
    (hms : NoMilestoneCallbacks rt.definition)
    (hsub : rt.subsystems = []) :
    (dictGet (tick rt delta).state.elements eid).map (fun e => e.unlocked) =
      (dictGet rt.state.elements eid).map (fun e => e.unlocked) := by
  unfold tick
  dsimp only
  by_cases hd : rt.dirty = true
  · rw [if_pos hd]
    dsimp only
    rw [(recompute_rates_frame rt).1, recompute_rates_subsystems, hsub,
        List.foldl_nil, cm_elements rt.definition _ hms, ues_unlocked]
    dsimp only
    rw [pac_elements, tick_production_elements, recompute_rates_elements]
  · rw [if_neg hd]
    rw [hsub, List.foldl_nil, cm_elements rt.definition _ hms, ues_unlocked]
    dsimp only
    rw [pac_elements, tick_production_elements]

theorem proj_updateKey_inc_unlocked (m : List (String × ElementState))
    (k k2 : String) :
    (dictGet (updateKey m k (fun e => { e with count := e.count + 1 }))
        k2).map (fun e => e.unlocked) =
      (dictGet m k2).map (fun e => e.unlocked) := by
  rw [dictGet_updateKey]
  by_cases h : k2 = k
  · subst h
    rw [if_pos rfl]
    cases dictGet m k2 <;> rfl
  · rw [if_neg h]

theorem foldl_immediate_unlocked_mono (effs : List EffectDef)
    (s : GameState) (eid : String)
    (h : (dictGet s.elements eid).map (fun e => e.unlocked) = some true) :
    (dictGet (effs.foldl (fun s eff =>
        if eff.phase == EffectPhase.IMMEDIATE then apply_immediate_effect s eff
        else s) s).elements eid).map (fun e => e.unlocked) = some true := by
  induction effs generalizing s with
  | nil => exact h
  | cons eff rest ih =>
    rw [List.foldl_cons]
    by_cases hp : (eff.phase == EffectPhase.IMMEDIATE) = true
    · rw [if_pos hp]
      exact ih _ (apply_immediate_effect_unlocked_mono s eff eid h)
    · rw [if_neg hp]
      exact ih _ h

/-- The unlocked-flag is never cleared by a purchase. -/
theorem try_purchase_unlocked (rt : Runtime) (pid eid : String)
    (hel : NoElementCallbacks rt.definition)
    (hu : (dictGet rt.state.elements eid).map (fun e => e.unlocked) =
      some true) :
    (dictGet (try_purchase rt pid).2.state.elements eid).map
      (fun e => e.unlocked) = some true := by
  rcases try_purchase_cases rt pid with hs | hf
  · obtain ⟨edef, hget⟩ : ∃ edef, rt.definition.get_element pid = some edef := by
      cases hg : rt.definition.get_element pid with
      | none =>
        exfalso
        unfold try_purchase at hs
        rw [hg] at hs
        cases hs
      | some e => exact ⟨e, rfl⟩
    obtain ⟨es, hes⟩ : ∃ es, dictGet rt.state.elements pid = some es := by
      cases hg : dictGet rt.state.elements pid with
      | none =>
        exfalso
        unfold try_purchase at hs
        rw [hget] at hs
        dsimp only at hs
        rw [hg] at hs
        cases hs
      | some e => exact ⟨e, rfl⟩
    have hcb : edef.on_purchase = none := hel edef (get_element_mem _ _ _ hget)
    rw [try_purchase_succ_eq rt pid edef es hget hes hs]
    dsimp only
    unfold purchase_success_state
    rw [hcb]
    dsimp only
    rw [ues_unlocked]
    refine foldl_immediate_unlocked_mono _ _ _ ?_
    simp only [updateElement_elements]
    rw [proj_updateKey_inc_unlocked, deduct_elements]
    exact hu
  · rw [hf]
    exact hu

/-- The prestige element-reset loop clears counts and flags but never
touches the unlocked latch. -/
theorem foldl_reset_element_unlocked (d : GameDefinition)
    (ids : List String) (s : GameState) (eid : String) :
    (dictGet ((ids.foldl (fun s eid2 =>
      match dictGet s.elements eid2 with
      | none => s
      | some _ =>
        match d.get_element eid2 with
        | none => s
        | some edef =>
          if edef.tags.contains "persistent" then s
          else s.updateElement eid2 (fun es =>
            { es with count := 0, available := false,
                      affordable := false })) s)).elements eid).map
        (fun e => e.unlocked) =
      (dictGet s.elements eid).map (fun e => e.unlocked) := by
  induction ids generalizing s with
  | nil => rfl
  | cons k rest ih =>
    rw [List.foldl_cons, ih]
    cases dictGet s.elements k with
    | none => rfl
    | some w =>
      dsimp only
      cases d.get_element k with
      | none => rfl
      | some edef =>
        dsimp only
        by_cases ht : edef.tags.contains "persistent" = true
        · rw [if_pos ht]
        · rw [if_neg ht]
          simp only [updateElement_elements]
          exact dictGet_updateKey_proj s.elements k eid _ _ (fun _ => rfl)

/-- The unlocked-flag survives any prestige trigger, including one whose
explicit element reset list names the element. -/
theorem trigger_prestige_unlocked (rt : Runtime) (lid eid : String)
    (hu : (dictGet rt.state.elements eid).map (fun e => e.unlocked) =
      some true) :
    (dictGet (trigger_prestige rt lid).2.state.elements eid).map
      (fun e => e.unlocked) = some true := by
  unfold trigger_prestige
  cases rt.definition.get_prestige_layer lid with
  | none => exact hu
  | some layer =>
    dsimp only
    by_cases h1 : (!layer.requirements.all (fun r => r.evaluate rt.state)) =
        true
    · rw [if_pos h1]
      exact hu
    · rw [if_neg h1]
      cases layer.reward_formula with
      | none => exact hu
      | some formula =>
        dsimp only
        by_cases h2 : formula rt.state < layer.minimum_reward
        · rw [if_pos h2]
          exact hu
        · rw [if_neg h2]
          dsimp only
          rw [ues_unlocked]
          dsimp only
          simp only [updateCurrency_elements]
          rw [foldl_reset_element_unlocked, reset_currency_fold_elements]
          exact hu

theorem update_element_statuses_eq_foldl (d : GameDefinition)
    (s : GameState) :
    update_element_statuses d s = d.elements.foldl (ues_step d) s := rfl

theorem ues_step_other (d : GameDefinition) (e : ElementDef) (s : GameState)
    (eid : String) (he : e.id ≠ eid) :
    dictGet (ues_step d s e).elements eid = dictGet s.elements eid := by
  unfold ues_step
  cases dictGet s.elements e.id with
  | none => rfl
  | some es =>
    dsimp only
    have hne : ¬ (eid = e.id) := fun hc => he hc.symm
    simp only [updateElement_elements, dictGet_updateKey, if_neg hne]

theorem ues_step_hit (d : GameDefinition) (e : ElementDef) (s : GameState)
    (es : ElementState) (ho : dictGet s.elements e.id = some es)
    (hesu : es.unlocked = true) :
    (dictGet (ues_step d s e).elements e.id).map
      (fun x => (x.available, x.unlocked)) = some (true, true) := by
  unfold ues_step
  rw [ho]
  dsimp only
  have havail : (if es.unlocked then true
      else e.requirements.all (fun r => r.evaluate s)) = true := by
    simp [hesu]
  rw [havail]
  simp only [updateElement_elements]
  rw [dictGet_updateKey, if_pos rfl, dictGet_updateKey, if_pos rfl, ho]
  simp [hesu]

theorem ues_fold_not_mem (d : GameDefinition) (els : List ElementDef)
    (s : GameState) (eid : String) (h : ∀ e ∈ els, e.id ≠ eid) :
    dictGet (els.foldl (ues_step d) s).elements eid =
      dictGet s.elements eid := by
  induction els generalizing s with
  | nil => rfl
  | cons e rest ih =>
    rw [List.foldl_cons,
        ih _ (fun e2 hm => h e2 (List.mem_cons_of_mem e hm)),
        ues_step_other d e s eid (h e (List.mem_cons_self e rest))]

theorem ues_fold_unlocked_avail (d : GameDefinition) (els : List ElementDef)
    (s : GameState) (eid : String)
    (hu : (dictGet s.elements eid).map (fun x => x.unlocked) = some true)
    (hmem : ∃ e ∈ els, e.id = eid) :
    (dictGet (els.foldl (ues_step d) s).elements eid).map
        (fun x => (x.available, x.unlocked)) = some (true, true) := by
  induction els generalizing s with
  | nil =>
    rcases hmem with ⟨e, he, _⟩
    cases he
  | cons e rest ih =>
    rw [List.foldl_cons]
    by_cases heq : e.id = eid
    · obtain ⟨es, ho, hesu⟩ :
          ∃ es, dictGet s.elements eid = some es ∧ es.unlocked = true := by
        cases hg : dictGet s.elements eid with
        | none =>
          rw [hg] at hu
          cases hu
        | some es0 =>
          rw [hg, Option.map_some'] at hu
          exact ⟨es0, rfl, Option.some.inj hu⟩
      have hstep := ues_step_hit d e s es (by rw [heq]; exact ho) hesu
      rw [heq] at hstep
      by_cases hrest : ∃ e2 ∈ rest, e2.id = eid
      · refine ih _ ?_ hrest
        cases hg2 : dictGet (ues_step d s e).elements eid with
        | none =>
          rw [hg2] at hstep
          cases hstep
        | some w =>
          rw [hg2, Option.map_some'] at hstep
          rw [Option.map_some']
          have h3 : w.unlocked = true :=
            congrArg Prod.snd (Option.some.inj hstep)
          rw [h3]
      · have hnone : ∀ e2 ∈ rest, e2.id ≠ eid := by
          intro e2 hm hc
          exact hrest ⟨e2, hm, hc⟩
        rw [ues_fold_not_mem d rest _ eid hnone]
        exact hstep
    · have hmem2 : ∃ e2 ∈ rest, e2.id = eid := by
        rcases hmem with ⟨e2, hm, hid⟩
        rcases List.mem_cons.mp hm with h | h
        · exact absurd (h ▸ hid) heq
        · exact ⟨e2, h, hid⟩
      refine ih _ ?_ hmem2
      rw [ues_step_other d e s eid heq]
      exact hu

/-- A sticky-unlocked element present in the definition comes out of
`_update_element_statuses` with `available = true` — its requirement list
is never consulted. -/
theorem ues_unlocked_available (d : GameDefinition) (s : GameState)
    (eid : String)
    (hu : (dictGet s.elements eid).map (fun x => x.unlocked) = some true)
    (hmem : ∃ e ∈ d.elements, e.id = eid) :
    (dictGet (update_element_statuses d s).elements eid).map
        (fun x => (x.available, x.unlocked)) = some (true, true) := by
  rw [update_element_statuses_eq_foldl]
  exact ues_fold_unlocked_avail d d.elements s eid hu hmem

/-- C10: the sticky-unlock flag is a one-way latch.  If an element's
`unlocked` flag is `true`, then after `tick` (with user callbacks and
subsystems absent, since those run arbitrary code), `try_purchase` of any
element, `process_click`, and `trigger_prestige` — including a prestige
whose explicit element reset list names this element — the flag is still
`true`; and `_update_element_statuses` sets such an element's `available`
flag to `true` without evaluating its requirements. -/
theorem sticky_unlock_latch (rt : Runtime) (eid pid cid lid : String)
    (delta : Rat)
    (hu : (dictGet rt.state.elements eid).map (fun e => e.unlocked) =
      some true)
    (hms : NoMilestoneCallbacks rt.definition)
    (hel : NoElementCallbacks rt.definition)
    (hsub : rt.subsystems = []) :
    (dictGet (tick rt delta).state.elements eid).map
        (fun e => e.unlocked) = some true ∧
    (dictGet (try_purchase rt pid).2.state.elements eid).map
        (fun e => e.unlocked) = some true ∧
    (dictGet (process_click rt cid).2.state.elements eid).map
        (fun e => e.unlocked) = some true ∧
    (dictGet (trigger_prestige rt lid).2.state.elements eid).map
        (fun e => e.unlocked) = some true ∧
    ((∃ e ∈ rt.definition.elements, e.id = eid) →
      (dictGet (update_element_statuses rt.definition rt.state).elements
          eid).map (fun e => (e.available, e.unlocked)) = some (true, true)) := by
  refine ⟨?_, ?_, ?_, ?_, ?_⟩
  · rw [tick_unlocked rt delta eid hms hsub]
    exact hu
  · exact try_purchase_unlocked rt pid eid hel hu
  · rw [pc_elements]
    exact hu
  · exact trigger_prestige_unlocked rt lid eid hu
  · intro hmem
    exact ues_unlocked_available rt.definition rt.state eid hu hmem

/-- Witness for C10 at `rtC10`: the relic is sticky-unlocked while its
`gold ≥ 1000` requirement is unmet; the flag survives a tick and a prestige
whose explicit reset list names the relic, and the status refresh reports
it available. -/
theorem sticky_unlock_latch_witness :
    (dictGet rtC10.state.elements "relic").map (fun e => e.unlocked) =
      some true ∧
    (dictGet (tick rtC10 1).state.elements "relic").map
        (fun e => e.unlocked) = some true ∧
    (dictGet (trigger_prestige rtC10 "reset").2.state.elements "relic").map
        (fun e => e.unlocked) = some true ∧
    (dictGet (update_element_statuses rtC10.definition rtC10.state).elements
        "relic").map (fun e => (e.available, e.unlocked)) =
      some (true, true) := by
  have h := sticky_unlock_latch rtC10 "relic" "relic" "gold" "reset" 1 rfl
    (by intro m hm; cases hm)
    (by
      intro e he
      cases he with
      | head => rfl
      | tail _ h2 => cases h2)
    rfl
  exact ⟨rfl, h.1, h.2.2.2.1,
    h.2.2.2.2 ⟨relicC10, List.mem_cons_self _ _, rfl⟩⟩

/-! ## Claim C6: milestones fire at most once per run -/

theorem dictGet_isSome_insert {α : Type} (m : List (String × α))
    (k mid : String) (v : α) (h : (dictGet m mid).isSome = true) :
    (dictGet (dictInsert m k v) mid).isSome = true := by
  by_cases hk : mid = k
  · subst hk
    rw [dictGet_dictInsert_self]
    rfl
  · rw [dictGet_dictInsert_ne m k mid v hk]
    exact h

theorem check_step_keeps_milestone (m : MilestoneDef) (s2 : GameState)
    (mid : String) (hno : m.on_trigger = none)
    (h : s2.has_milestone mid = true) :
    (if s2.has_milestone m.id then s2
     else match m.trigger with
       | none => s2
       | some tr =>
         if tr.evaluate s2 then
           let s := { s2 with milestones_reached :=
             (dictInsert s2.milestones_reached m.id s2.time_elapsed) }
           match m.on_trigger with
           | some f => f s
           | none => s
         else s2).has_milestone mid = true := by
  by_cases h1 : s2.has_milestone m.id = true
  · rw [if_pos h1]
    exact h
  · rw [if_neg h1]
    cases m.trigger with
    | none => exact h
    | some tr =>
      dsimp only
      by_cases h2 : tr.evaluate s2 = true
      · rw [if_pos h2]
        simp only [hno]
        rw [has_milestone_iff] at h ⊢
        exact dictGet_isSome_insert _ _ _ _ h
      · rw [if_neg h2]
        exact h

/-- Replacing the trigger of an already-reached milestone does not change
what `_check_milestones` computes: the trigger of a reached milestone is
never consulted. -/
theorem check_milestones_fold_trigger_irrelevant (ms : List MilestoneDef)
    (mid : String) (t : Option Requirement) :
    ∀ s2 : GameState, (∀ m ∈ ms, m.on_trigger = none) →
      s2.has_milestone mid = true →
      (ms.map (fun m => if m.id == mid then { m with trigger := t }
          else m)).foldl
        (fun s mdef =>
          if s.has_milestone mdef.id then s
          else
            match mdef.trigger with
            | none => s
            | some tr =>
              if tr.evaluate s then
                let s := { s with milestones_reached :=
                  (dictInsert s.milestones_reached mdef.id s.time_elapsed) }
                match mdef.on_trigger with
                | some f => f s
                | none => s
              else s) s2 =
      ms.foldl
        (fun s mdef =>
          if s.has_milestone mdef.id then s
          else
            match mdef.trigger with
            | none => s
            | some tr =>
              if tr.evaluate s then
                let s := { s with milestones_reached :=
                  (dictInsert s.milestones_reached mdef.id s.time_elapsed) }
                match mdef.on_trigger with
                | some f => f s
                | none => s
              else s) s2 := by
  induction ms with
  | nil =>
    intro s2 _ _
    rfl
  | cons m rest ih =>
    intro s2 hno hreach
    rw [List.map_cons, List.foldl_cons, List.foldl_cons]
    by_cases hm : (m.id == mid) = true
    · rw [if_pos hm]
      dsimp only
      have hid : m.id = mid := beq_iff_eq.mp hm
      have hh2 : s2.has_milestone m.id = true := by
        rw [hid]
        exact hreach
      rw [if_pos hh2, if_pos hh2]
      exact ih s2 (fun m2 hm2 => hno m2 (List.mem_cons_of_mem m hm2)) hreach
    · rw [if_neg hm]
      dsimp only
      exact ih _ (fun m2 hm2 => hno m2 (List.mem_cons_of_mem m hm2))
        (check_step_keeps_milestone m s2 mid
          (hno m (List.mem_cons_self m rest)) hreach)

theorem check_milestones_trigger_irrelevant (d : GameDefinition)
    (s : GameState) (mid : String) (t : Option Requirement)
    (hms : NoMilestoneCallbacks d) (hreach : s.has_milestone mid = true) :
    check_milestones (replace_trigger d mid t) s = check_milestones d s := by
  unfold check_milestones replace_trigger
  dsimp only
  exact check_milestones_fold_trigger_irrelevant d.milestones mid t s hms
    hreach

theorem pac_milestones (d : GameDefinition) (s : GameState) (delta : Rat) :
    (process_auto_clicks d s delta).milestones_reached =
      s.milestones_reached :=
  congrArg (fun t => t.2.2.1) (process_auto_clicks_frame d s delta)

theorem tick_production_milestones (d : GameDefinition) (delta : Rat)
    (cds : List CurrencyDef) (s : GameState) :
    (cds.foldl (fun s cdef =>
      match dictGet s.currencies cdef.id with
      | none => s
      | some cs =>
        if cs.current_rate = 0 then s
        else
          let earned := cs.current_rate * delta
          let s := s.updateCurrency cdef.id (fun c =>
            { c with current := c.current + earned,
                     total_earned := if earned > 0 then
                         c.total_earned + earned
                       else c.total_earned })
          match resolve_cap d s cdef.id with
          | none => s
          | some cap =>
            s.updateCurrency cdef.id (fun c =>
              if cap < c.current then { c with current := cap } else c)) s
      ).milestones_reached = s.milestones_reached :=
  congrArg (fun t => t.2.2.1) (tick_production_frame d delta cds s)

theorem recompute_rates_milestones (rt : Runtime) :
    (recompute_rates rt).state.milestones_reached =
      rt.state.milestones_reached :=
  congrArg (fun t => t.2.2.1) (recompute_rates_frame rt).2.2.1

theorem pc_milestones (rt : Runtime) (cid : String) :
    (process_click rt cid).2.state.milestones_reached =
      rt.state.milestones_reached :=
  congrArg (fun t => t.2.2.1) (process_click_frame rt cid).1

theorem tick_milestone_entry (rt : Runtime) (delta : Rat) (mid : String)
    (t0 : Rat) (hm : dictGet rt.state.milestones_reached mid = some t0)
    (hms : NoMilestoneCallbacks rt.definition)
    (hsub : rt.subsystems = []) :
    dictGet (tick rt delta).state.milestones_reached mid = some t0 := by
  unfold tick
  dsimp only
  by_cases hd : rt.dirty = true
  · rw [if_pos hd]
    dsimp only
    rw [(recompute_rates_frame rt).1, recompute_rates_subsystems, hsub,
        List.foldl_nil]
    refine check_milestones_preserves_entry rt.definition _ mid t0 hms ?_
    rw [ues_milestones]
    dsimp only
    rw [pac_milestones, tick_production_milestones,
        recompute_rates_milestones]
    exact hm
  · rw [if_neg hd]
    rw [hsub, List.foldl_nil]
    refine check_milestones_preserves_entry rt.definition _ mid t0 hms ?_
    rw [ues_milestones]
    dsimp only
    rw [pac_milestones, tick_production_milestones]
    exact hm

theorem foldl_immediate_milestones (effs : List EffectDef) (s : GameState) :
    (effs.foldl (fun s eff =>
      if eff.phase == EffectPhase.IMMEDIATE then apply_immediate_effect s eff
      else s) s).milestones_reached = s.milestones_reached := by
  induction effs generalizing s with
  | nil => rfl
  | cons eff rest ih =>
    rw [List.foldl_cons, ih]
    by_cases hp : (eff.phase == EffectPhase.IMMEDIATE) = true
    · rw [if_pos hp]
      exact (apply_immediate_effect_meta s eff).2.1
    · rw [if_neg hp]

theorem try_purchase_milestone_entry (rt : Runtime) (pid mid : String)
    (t0 : Rat) (hel : NoElementCallbacks rt.definition)
    (hm : dictGet rt.state.milestones_reached mid = some t0) :
    dictGet (try_purchase rt pid).2.state.milestones_reached mid =
      some t0 := by
  rcases try_purchase_cases rt pid with hs | hf
  · obtain ⟨edef, hget⟩ : ∃ edef, rt.definition.get_element pid =
        some edef := by
      cases hg : rt.definition.get_element pid with
      | none =>
        exfalso
        unfold try_purchase at hs
        rw [hg] at hs
        cases hs
      | some e => exact ⟨e, rfl⟩
    obtain ⟨es, hes⟩ : ∃ es, dictGet rt.state.elements pid = some es := by
      cases hg : dictGet rt.state.elements pid with
      | none =>
        exfalso
        unfold try_purchase at hs
        rw [hget] at hs
        dsimp only at hs
        rw [hg] at hs
        cases hs
      | some e => exact ⟨e, rfl⟩
    have hcb : edef.on_purchase = none := hel edef (get_element_mem _ _ _ hget)
    rw [try_purchase_succ_eq rt pid edef es hget hes hs]
    dsimp only
    unfold purchase_success_state
    rw [hcb]
    dsimp only
    rw [ues_milestones, foldl_immediate_milestones, updateElement_milestones,
        deduct_milestones]
    exact hm
  · rw [hf]
    exact hm

theorem record_new_milestones_inv (reached : List (String × Rat))
    (acc : List String × List String)
    (h1 : acc.2.Nodup) (h2 : ∀ x ∈ acc.2, x ∈ acc.1) :
    (record_new_milestones reached acc).2.Nodup ∧
    ∀ x ∈ (record_new_milestones reached acc).2,
      x ∈ (record_new_milestones reached acc).1 := by
  unfold record_new_milestones
  induction reached generalizing acc with
  | nil => exact ⟨h1, h2⟩
  | cons m rest ih =>
    rw [List.foldl_cons]
    by_cases hc : acc.1.contains m.1 = true
    · rw [if_pos hc]
      exact ih acc h1 h2
    · rw [if_neg hc]
      have hnot : m.1 ∉ acc.2 := fun hx => hc (by
        have hmem := h2 _ hx
        simpa using hmem)
      refine ih _ ?_ ?_
      · rw [List.nodup_append]
        refine ⟨h1, List.nodup_singleton _, ?_⟩
        intro a ha hb
        rw [List.mem_singleton] at hb
        exact hnot (hb ▸ ha)
      · intro x hx
        rcases List.mem_append.mp hx with hx | hx
        · exact List.mem_cons_of_mem _ (h2 _ hx)
        · rw [List.mem_singleton] at hx
          rw [hx]
          exact List.mem_cons_self _ _

theorem milestone_log_run_nodup_aux (snaps : List (List (String × Rat)))
    (acc : List String × List String)
    (h1 : acc.2.Nodup) (h2 : ∀ x ∈ acc.2, x ∈ acc.1) :
    (milestone_log_run snaps acc).2.Nodup := by
  unfold milestone_log_run
  induction snaps generalizing acc with
  | nil => exact h1
  | cons r rest ih =>
    rw [List.foldl_cons]
    have h := record_new_milestones_inv r acc h1 h2
    exact ih _ h.1 h.2

/-- C6: a milestone fires at most once per run.  Once `mid` is in the
milestones-reached map with recorded time `t0`, `_check_milestones` keeps
the entry untouched (given no `on_trigger` callbacks, which run arbitrary
code), the milestone's trigger is never consulted again (replacing it
changes nothing), the entry survives `tick`, `try_purchase` and
`process_click` unchanged, and the simulation loop's milestone event log
never records an id twice, whatever the per-tick snapshots are. -/
theorem milestone_fires_once (rt : Runtime) (mid : String) (t0 : Rat)
    (delta : Rat) (pid cid : String) (t : Option Requirement)
    (snaps : List (List (String × Rat)))
    (hm : dictGet rt.state.milestones_reached mid = some t0)
    (hms : NoMilestoneCallbacks rt.definition)
    (hel : NoElementCallbacks rt.definition)
    (hsub : rt.subsystems = []) :
    dictGet (check_milestones rt.definition rt.state).milestones_reached mid
      = some t0 ∧
    check_milestones (replace_trigger rt.definition mid t) rt.state =
      check_milestones rt.definition rt.state ∧
    dictGet (tick rt delta).state.milestones_reached mid = some t0 ∧
    dictGet (try_purchase rt pid).2.state.milestones_reached mid =
      some t0 ∧
    dictGet (process_click rt cid).2.state.milestones_reached mid =
      some t0 ∧
    (milestone_log_run snaps ([], [])).2.Nodup := by
  refine ⟨?_, ?_, ?_, ?_, ?_, ?_⟩
  · exact check_milestones_preserves_entry rt.definition rt.state mid t0
      hms hm
  · refine check_milestones_trigger_irrelevant rt.definition rt.state mid t
      hms ?_
    rw [has_milestone_iff, hm]
    rfl
  · exact tick_milestone_entry rt delta mid t0 hm hms hsub
  · exact try_purchase_milestone_entry rt pid mid t0 hel hm
  · rw [pc_milestones]
    exact hm
  · exact milestone_log_run_nodup_aux snaps ([], []) List.nodup_nil
      (by intro x hx; cases hx)

/-- Witness for C6 at `rtC6`: milestone `"first"` was recorded at time 1;
after a tick its entry is unchanged, swapping its trigger is invisible to
`_check_milestones`, and a log fed the same reached-map twice holds
`"first"` only once. -/
theorem milestone_fires_once_witness :
    dictGet (tick rtC6 1).state.milestones_reached "first" = some 1 ∧
    check_milestones (replace_trigger rtC6.definition "first"
        (some (.time .ge 0))) rtC6.state =
      check_milestones rtC6.definition rtC6.state ∧
    (milestone_log_run [[("first", 1)], [("first", 1)]] ([], [])).2.Nodup := by
  have h := milestone_fires_once rtC6 "first" 1 1 "x" "gold"
    (some (.time .ge 0)) [[("first", 1)], [("first", 1)]] rfl
    (by
      intro m hm
      cases hm with
      | head => rfl
      | tail _ h2 => cases h2)
    (by intro e he; cases he) rfl
  exact ⟨h.2.2.1, h.2.1, h.2.2.2.2.2⟩

/-! ## Claim C5: monotonicity of total_earned -/

theorem total_earned_of_congr (s1 s2 : GameState) (cid : String)
    (h : s1.currencies = s2.currencies) :
    s1.total_earned_of cid = s2.total_earned_of cid := by
  unfold GameState.total_earned_of
  rw [h]

theorem total_earned_of_dictGet_congr (s1 s2 : GameState) (cid : String)
    (h : dictGet s1.currencies cid = dictGet s2.currencies cid) :
    s1.total_earned_of cid = s2.total_earned_of cid := by
  unfold GameState.total_earned_of
  rw [h]

theorem total_earned_of_pair_congr (s1 s2 : GameState) (cid : String)
    (h : (dictGet s1.currencies cid).map
        (fun c => (c.current, c.total_earned)) =
      (dictGet s2.currencies cid).map
        (fun c => (c.current, c.total_earned))) :
    s1.total_earned_of cid = s2.total_earned_of cid := by
  unfold GameState.total_earned_of
  cases h1 : dictGet s1.currencies cid with
  | none =>
    cases h2 : dictGet s2.currencies cid with
    | none => rfl
    | some c2 =>
      rw [h1, h2] at h
      cases h
  | some c1 =>
    cases h2 : dictGet s2.currencies cid with
    | none =>
      rw [h1, h2] at h
      cases h
    | some c2 =>
      rw [h1, h2, Option.map_some', Option.map_some'] at h
      exact congrArg Prod.snd (Option.some.inj h)

theorem total_earned_of_set_time (s : GameState) (v : Rat) (cid : String) :
    GameState.total_earned_of { s with time_elapsed := v } cid =
      s.total_earned_of cid := rfl

theorem total_earned_of_set_prestige (s : GameState)
    (p : List (String × Int)) (n : Int) (cid : String) :
    GameState.total_earned_of
        { s with prestige_counts := p, run_number := n } cid =
      s.total_earned_of cid := rfl

theorem total_earned_of_updateCurrency_mono (s : GameState) (k cid : String)
    (f : CurrencyState → CurrencyState)
    (hf : ∀ c, c.total_earned ≤ (f c).total_earned) :
    s.total_earned_of cid ≤ (s.updateCurrency k f).total_earned_of cid := by
  unfold GameState.total_earned_of
  simp only [updateCurrency_currencies, dictGet_updateKey]
  by_cases h : cid = k
  · rw [if_pos h, h]
    cases dictGet s.currencies k with
    | none => exact le_rfl
    | some c => exact hf c
  · rw [if_neg h]

theorem total_earned_of_updateCurrency_keep (s : GameState) (k cid : String)
    (f : CurrencyState → CurrencyState)
    (hf : ∀ c, (f c).total_earned = c.total_earned) :
    (s.updateCurrency k f).total_earned_of cid = s.total_earned_of cid := by
  unfold GameState.total_earned_of
  simp only [updateCurrency_currencies, dictGet_updateKey]
  by_cases h : cid = k
  · rw [if_pos h, h]
    cases dictGet s.currencies k with
    | none => rfl
    | some c => exact hf c
  · rw [if_neg h]

/-- The production loop of `tick` only ever adds strictly positive earnings
to total_earned (the `earned > 0` guard), and the cap clamp touches only the
balance. -/
theorem tick_production_total_mono (d : GameDefinition) (delta : Rat)
    (cds : List CurrencyDef) (s : GameState) (cid : String) :
    s.total_earned_of cid ≤ (cds.foldl (fun s cdef =>
      match dictGet s.currencies cdef.id with
      | none => s
      | some cs =>
        if cs.current_rate = 0 then s
        else
          let earned := cs.current_rate * delta
          let s := s.updateCurrency cdef.id (fun c =>
            { c with current := c.current + earned,
                     total_earned := if earned > 0 then
                         c.total_earned + earned
                       else c.total_earned })
          match resolve_cap d s cdef.id with
          | none => s
          | some cap =>
            s.updateCurrency cdef.id (fun c =>
              if cap < c.current then { c with current := cap } else c)) s
      ).total_earned_of cid := by
  induction cds generalizing s with
  | nil => exact le_rfl
  | cons cdef rest ih =>
    rw [List.foldl_cons]
    refine le_trans ?_ (ih _)
    cases hg : dictGet s.currencies cdef.id with
    | none => exact le_rfl
    | some cs =>
      dsimp only
      by_cases hr : cs.current_rate = 0
      · rw [if_pos hr]
      · rw [if_neg hr]
        split
        · exact total_earned_of_updateCurrency_mono s cdef.id cid _
            (fun c => by
              dsimp only
              by_cases hpos : cs.current_rate * delta > 0
              · rw [if_pos hpos]
                linarith
              · rw [if_neg hpos])
        · refine le_trans (total_earned_of_updateCurrency_mono s cdef.id cid _
            (fun c => by
              dsimp only
              by_cases hpos : cs.current_rate * delta > 0
              · rw [if_pos hpos]
                linarith
              · rw [if_neg hpos]))
            (le_of_eq (total_earned_of_updateCurrency_keep _ cdef.id cid _
              (fun c => by
                split <;> rfl)).symm)

/-- Without AUTO_CLICK effects the auto-click pass is the identity. -/
theorem process_auto_clicks_noop (d : GameDefinition) (s : GameState)
    (delta : Rat)
    (h : ∀ e ∈ d.elements, ∀ eff ∈ e.effects,
      eff.type ≠ EffectType.AUTO_CLICK) :
    process_auto_clicks d s delta = s := by
  unfold process_auto_clicks
  have hinner : ∀ (effs : List EffectDef),
      (∀ eff ∈ effs, eff.type ≠ EffectType.AUTO_CLICK) →
      ∀ s2 : GameState, effs.foldl (fun s eff =>
        if eff.type != EffectType.AUTO_CLICK then s
        else if !eff.is_active s then s
        else
          let clicks_per_sec := eff.resolve s
          let total_clicks := clicks_per_sec * delta
          match d.get_click_target eff.target with
          | none => s
          | some ct =>
            let value := ct.base_value * total_clicks
            match dictGet s.currencies eff.target with
            | none => s
            | some _ =>
              s.updateCurrency eff.target (fun cs =>
                { cs with current := cs.current + value,
                          total_earned := cs.total_earned + value })) s2 =
        s2 := by
    intro effs
    induction effs with
    | nil =>
      intro _ s2
      rfl
    | cons eff rest ih =>
      intro hno s2
      rw [List.foldl_cons]
      have hb : (eff.type != EffectType.AUTO_CLICK) = true :=
        bne_iff_ne.mpr (hno eff (List.mem_cons_self eff rest))
      rw [if_pos hb]
      exact ih (fun e2 hm => hno e2 (List.mem_cons_of_mem eff hm)) s2
  suffices hgen : ∀ (els : List ElementDef),
      (∀ e ∈ els, ∀ eff ∈ e.effects, eff.type ≠ EffectType.AUTO_CLICK) →
      ∀ s2 : GameState, els.foldl (fun s edef =>
        if s.element_count edef.id ≤ 0 then s
        else edef.effects.foldl (fun s eff =>
          if eff.type != EffectType.AUTO_CLICK then s
          else if !eff.is_active s then s
          else
            let clicks_per_sec := eff.resolve s
            let total_clicks := clicks_per_sec * delta
            match d.get_click_target eff.target with
            | none => s
            | some ct =>
              let value := ct.base_value * total_clicks
              match dictGet s.currencies eff.target with
              | none => s
              | some _ =>
                s.updateCurrency eff.target (fun cs =>
                  { cs with current := cs.current + value,
                            total_earned := cs.total_earned + value })) s)
        s2 = s2 by
    exact hgen d.elements h s
  intro els
  induction els with
  | nil =>
    intro _ s2
    rfl
  | cons edef rest ih =>
    intro hno s2
    rw [List.foldl_cons]
    by_cases hcc : s2.element_count edef.id ≤ 0
    · rw [if_pos hcc]
      exact ih (fun e2 hm => hno e2 (List.mem_cons_of_mem edef hm)) s2
    · rw [if_neg hcc,
          hinner edef.effects (hno edef (List.mem_cons_self edef rest)) s2]
      exact ih (fun e2 hm => hno e2 (List.mem_cons_of_mem edef hm)) s2

theorem foldl_immediate_total_mono (effs : List EffectDef) (s : GameState)
    (cid : String) :
    s.total_earned_of cid ≤ (effs.foldl (fun s eff =>
      if eff.phase == EffectPhase.IMMEDIATE then apply_immediate_effect s eff
      else s) s).total_earned_of cid := by
  induction effs generalizing s with
  | nil => exact le_rfl
  | cons eff rest ih =>
    rw [List.foldl_cons]
    refine le_trans ?_ (ih _)
    by_cases hp : (eff.phase == EffectPhase.IMMEDIATE) = true
    · rw [if_pos hp]
      exact apply_immediate_effect_total_mono s eff cid
    · rw [if_neg hp]

theorem recompute_rates_total_earned (rt : Runtime) (cid : String) :
    (recompute_rates rt).state.total_earned_of cid =
      rt.state.total_earned_of cid :=
  total_earned_of_pair_congr _ _ cid ((recompute_rates_frame rt).2.2.2 cid)

theorem deduct_total_earned (cost : List (String × Rat)) (s : GameState)
    (cid : String) :
    (cost.foldl (fun s p =>
      s.updateCurrency p.1 (fun cs =>
        { cs with current := cs.current - p.2 })) s).total_earned_of cid =
      s.total_earned_of cid := by
  unfold GameState.total_earned_of
  rw [foldl_deduct_currencies]
  cases h : dictGet s.currencies cid with
  | none => rfl
  | some cs => rfl

theorem tick_total_mono (rt : Runtime) (delta : Rat) (cid : String)
    (hms : NoMilestoneCallbacks rt.definition)
    (hsub : rt.subsystems = [])
    (hnoauto : ∀ e ∈ rt.definition.elements, ∀ eff ∈ e.effects,
      eff.type ≠ EffectType.AUTO_CLICK) :
    rt.state.total_earned_of cid ≤
      (tick rt delta).state.total_earned_of cid := by
  unfold tick
  dsimp only
  by_cases hd : rt.dirty = true
  · rw [if_pos hd]
    dsimp only
    rw [(recompute_rates_frame rt).1, recompute_rates_subsystems, hsub,
        List.foldl_nil,
        total_earned_of_congr _ _ cid (cm_currencies rt.definition _ hms),
        total_earned_of_congr _ _ cid (ues_currencies rt.definition _),
        total_earned_of_set_time,
        process_auto_clicks_noop rt.definition _ delta hnoauto]
    exact le_trans (le_of_eq (recompute_rates_total_earned rt cid).symm)
      (tick_production_total_mono rt.definition delta
        rt.definition.currencies _ cid)
  · rw [if_neg hd]
    rw [hsub, List.foldl_nil,
        total_earned_of_congr _ _ cid (cm_currencies rt.definition _ hms),
        total_earned_of_congr _ _ cid (ues_currencies rt.definition _),
        total_earned_of_set_time,
        process_auto_clicks_noop rt.definition _ delta hnoauto]
    exact tick_production_total_mono rt.definition delta
      rt.definition.currencies _ cid

theorem try_purchase_total_mono (rt : Runtime) (pid cid : String)
    (hel : NoElementCallbacks rt.definition) :
    rt.state.total_earned_of cid ≤
      (try_purchase rt pid).2.state.total_earned_of cid := by
  rcases try_purchase_cases rt pid with hs | hf
  · obtain ⟨edef, hget⟩ : ∃ edef, rt.definition.get_element pid =
        some edef := by
      cases hg : rt.definition.get_element pid with
      | none =>
        exfalso
        unfold try_purchase at hs
        rw [hg] at hs
        cases hs
      | some e => exact ⟨e, rfl⟩
    obtain ⟨es, hes⟩ : ∃ es, dictGet rt.state.elements pid = some es := by
      cases hg : dictGet rt.state.elements pid with
      | none =>
        exfalso
        unfold try_purchase at hs
        rw [hget] at hs
        dsimp only at hs
        rw [hg] at hs
        cases hs
      | some e => exact ⟨e, rfl⟩
    have hcb : edef.on_purchase = none := hel edef (get_element_mem _ _ _ hget)
    rw [try_purchase_succ_eq rt pid edef es hget hes hs]
    dsimp only
    unfold purchase_success_state
    rw [hcb]
    dsimp only
    rw [total_earned_of_congr _ _ cid (ues_currencies rt.definition _)]
    refine le_trans ?_ (foldl_immediate_total_mono edef.effects _ cid)
    rw [total_earned_of_congr _ _ cid (updateElement_currencies _ _ _)]
    exact le_of_eq (deduct_total_earned _ rt.state cid).symm
  · rw [hf]

theorem process_click_total_mono (rt : Runtime) (tgt cid : String)
    (hv : 0 ≤ (process_click rt tgt).1) :
    rt.state.total_earned_of cid ≤
      (process_click rt tgt).2.state.total_earned_of cid := by
  unfold process_click at hv ⊢
  cases hct : rt.definition.get_click_target tgt with
  | none => exact le_rfl
  | some ct =>
    rw [hct] at hv
    dsimp only at hv ⊢
    split
    · exact total_earned_of_updateCurrency_mono rt.state tgt cid _
        (fun c => by
          dsimp only
          linarith)
    · refine le_trans (total_earned_of_updateCurrency_mono rt.state tgt cid _
        (fun c => by
          dsimp only
          linarith))
        (le_of_eq (total_earned_of_updateCurrency_keep _ tgt cid _
          (fun c => by
            split <;> rfl)).symm)

set_option maxHeartbeats 1000000 in
theorem trigger_prestige_total_mono (rt : Runtime) (lid cid : String)
    (hnm : cid ∉ (trigger_prestige rt lid).1.currencies_reset)
    (hr : 0 ≤ (trigger_prestige rt lid).1.reward_amount) :
    rt.state.total_earned_of cid ≤
      (trigger_prestige rt lid).2.state.total_earned_of cid := by
  unfold trigger_prestige at hnm hr ⊢
  cases hget : rt.definition.get_prestige_layer lid with
  | none => exact le_rfl
  | some layer =>
    rw [hget] at hnm hr
    dsimp only at hnm hr ⊢
    by_cases h1 : (!layer.requirements.all (fun r => r.evaluate rt.state)) =
        true
    · rw [if_pos h1]
    · rw [if_neg h1] at hnm hr ⊢
      cases hf : layer.reward_formula with
      | none => exact le_rfl
      | some formula =>
        rw [hf] at hnm hr
        dsimp only at hnm hr ⊢
        by_cases h2 : formula rt.state < layer.minimum_reward
        · rw [if_pos h2]
        · rw [if_neg h2] at hnm hr ⊢
          dsimp only at hnm hr ⊢
          rw [total_earned_of_congr _ _ cid (ues_currencies rt.definition _),
              total_earned_of_set_prestige]
          unfold GameState.total_earned_of
          simp only [updateCurrency_currencies, dictGet_updateKey]
          simp only [reset_element_fold_currencies rt.definition]
          by_cases hpc : cid = layer.prestige_currency
          · subst hpc
            rw [if_pos rfl,
                foldl_reset_currency_not_mem rt.definition _ rt.state _ hnm]
            cases horig : dictGet rt.state.currencies
                layer.prestige_currency with
            | none => exact le_rfl
            | some c =>
              show c.total_earned ≤ c.total_earned + formula rt.state
              linarith
          · rw [if_neg hpc,
                foldl_reset_currency_not_mem rt.definition _ rt.state cid hnm]

/-- C5 (amended): total_earned is monotonically non-decreasing across
`tick` (production credits only positive earnings; stated for games without
AUTO_CLICK effects, whose unguarded click credit can subtract — see the
counterexample for the same flaw in `process_click`), across
`try_purchase` (cost deduction touches only the balance; GRANT effects are
`> 0`-guarded), across `process_click` whenever the computed click value is
non-negative, and across `trigger_prestige` for every currency outside the
reset list when the granted reward is non-negative; a prestige reset sets
total_earned to the definition's initial value, not zero (claim C3). -/
theorem total_earned_monotone (rt : Runtime) (cid : String) (delta : Rat)
    (pid tgt lid : String)
    (hms : NoMilestoneCallbacks rt.definition)
    (hel : NoElementCallbacks rt.definition)
    (hsub : rt.subsystems = [])
    (hnoauto : ∀ e ∈ rt.definition.elements, ∀ eff ∈ e.effects,
      eff.type ≠ EffectType.AUTO_CLICK) :
    rt.state.total_earned_of cid ≤
      (tick rt delta).state.total_earned_of cid ∧
    rt.state.total_earned_of cid ≤
      (try_purchase rt pid).2.state.total_earned_of cid ∧
    (0 ≤ (process_click rt tgt).1 →
      rt.state.total_earned_of cid ≤
        (process_click rt tgt).2.state.total_earned_of cid) ∧
    (cid ∉ (trigger_prestige rt lid).1.currencies_reset →
      0 ≤ (trigger_prestige rt lid).1.reward_amount →
      rt.state.total_earned_of cid ≤
        (trigger_prestige rt lid).2.state.total_earned_of cid) :=
  ⟨tick_total_mono rt delta cid hms hsub hnoauto,
   try_purchase_total_mono rt pid cid hel,
   fun hv => process_click_total_mono rt tgt cid hv,
   fun hnm hr => trigger_prestige_total_mono rt lid cid hnm hr⟩

/-- Witness for the amended C5 at `rtW3`: gems' total_earned (7) does not
decrease across a tick nor across the successful prestige (gems are outside
the resolved reset list and the reward 1 is non-negative). -/
theorem total_earned_monotone_witness :
    rtW3.state.total_earned_of "gems" ≤
      (tick rtW3 1).state.total_earned_of "gems" ∧
    rtW3.state.total_earned_of "gems" ≤
      (trigger_prestige rtW3 "asc").2.state.total_earned_of "gems" := by
  have h := total_earned_monotone rtW3 "gems" 1 "altar" "gold" "asc"
    (by intro m hm; cases hm)
    (by
      intro e he
      cases he with
      | head => rfl
      | tail _ h2 => cases h2)
    rfl
    (by
      intro e he
      cases he with
      | head =>
        intro eff heff
        cases heff
      | tail _ h2 => cases h2)
  exact ⟨h.1, h.2.2.2 (by decide) (by decide)⟩

/-! ## Claim C4: the GreedyROI speculative purchase/undo round-trip -/

theorem apply_cost_effects_noop (d : GameDefinition) (s : GameState)
    (element_id : String) (cost : List (String × Rat))
    (h : ∀ e ∈ d.elements, ∀ eff ∈ e.effects,
      eff.type ≠ EffectType.COST_MULT) :
    apply_cost_effects d s element_id cost = cost := by
  unfold apply_cost_effects
  dsimp only
  have hinner : ∀ (effs : List EffectDef),
      (∀ eff ∈ effs, eff.type ≠ EffectType.COST_MULT) →
      ∀ m : Rat, effs.foldl (fun m eff =>
        if eff.type == EffectType.COST_MULT && eff.target == element_id &&
            eff.is_active s then
          m * eff.resolve s
        else m) m = m := by
    intro effs
    induction effs with
    | nil =>
      intro _ m
      rfl
    | cons eff rest ih =>
      intro hno m
      rw [List.foldl_cons]
      have hb : (eff.type == EffectType.COST_MULT) = false :=
        beq_eq_false_iff_ne.mpr (hno eff (List.mem_cons_self eff rest))
      rw [if_neg (by
        rw [hb]
        simp)]
      exact ih (fun e2 hm => hno e2 (List.mem_cons_of_mem eff hm)) m
  have hmult : d.elements.foldl (fun m edef =>
      if s.element_count edef.id ≤ 0 then m
      else edef.effects.foldl (fun m eff =>
        if eff.type == EffectType.COST_MULT && eff.target == element_id &&
            eff.is_active s then
          m * eff.resolve s
        else m) m) 1 = 1 := by
    suffices hgen : ∀ (els : List ElementDef),
        (∀ e ∈ els, ∀ eff ∈ e.effects, eff.type ≠ EffectType.COST_MULT) →
        ∀ m : Rat, els.foldl (fun m edef =>
          if s.element_count edef.id ≤ 0 then m
          else edef.effects.foldl (fun m eff =>
            if eff.type == EffectType.COST_MULT &&
                eff.target == element_id && eff.is_active s then
              m * eff.resolve s
            else m) m) m = m by
      exact hgen d.elements h 1
    intro els
    induction els with
    | nil =>
      intro _ m
      rfl
    | cons edef rest ih =>
      intro hno m
      rw [List.foldl_cons]
      by_cases hcc : s.element_count edef.id ≤ 0
      · rw [if_pos hcc]
        exact ih (fun e2 hm => hno e2 (List.mem_cons_of_mem edef hm)) m
      · rw [if_neg hcc,
            hinner edef.effects (hno edef (List.mem_cons_self edef rest)) m]
        exact ih (fun e2 hm => hno e2 (List.mem_cons_of_mem edef hm)) m
  rw [hmult]
  rw [if_neg (by simp)]

theorem metaOf_of_nonCurrency {a b : GameState}
    (h : nonCurrency a = nonCurrency b) : metaOf a = metaOf b := by
  unfold metaOf
  rw [show a.time_elapsed = b.time_elapsed from congrArg (fun t => t.1) h,
      show a.milestones_reached = b.milestones_reached from
        congrArg (fun t => t.2.2.1) h,
      show a.prestige_counts = b.prestige_counts from
        congrArg (fun t => t.2.2.2.1) h,
      show a.run_number = b.run_number from congrArg (fun t => t.2.2.2.2) h]

theorem metaOf_of_nonElements {a b : GameState}
    (h : nonElements a = nonElements b) : metaOf a = metaOf b := by
  unfold metaOf
  rw [show a.time_elapsed = b.time_elapsed from congrArg (fun t => t.1) h,
      show a.milestones_reached = b.milestones_reached from
        congrArg (fun t => t.2.2.1) h,
      show a.prestige_counts = b.prestige_counts from
        congrArg (fun t => t.2.2.2.1) h,
      show a.run_number = b.run_number from congrArg (fun t => t.2.2.2.2) h]

theorem metaOf_updateCurrency (s : GameState) (k : String)
    (f : CurrencyState → CurrencyState) :
    metaOf (s.updateCurrency k f) = metaOf s := rfl

theorem metaOf_updateElement (s : GameState) (k : String)
    (f : ElementState → ElementState) :
    metaOf (s.updateElement k f) = metaOf s := rfl

theorem foldl_rate_write_not_mem {β : Type} (l : List β) (key : β → String)
    (g : GameState → β → Rat) (s : GameState) (cid : String)
    (h : cid ∉ l.map key) :
    dictGet (l.foldl (fun s b => s.updateCurrency (key b) (fun cs =>
        { cs with current_rate := g s b })) s).currencies cid =
      dictGet s.currencies cid := by
  induction l generalizing s with
  | nil => rfl
  | cons b rest ih =>
    rw [List.map_cons, List.mem_cons] at h
    push_neg at h
    rw [List.foldl_cons, ih _ h.2, updateCurrency_currencies,
        dictGet_updateKey, if_neg h.1]

theorem recompute_rates_not_mem (rt : Runtime) (cid : String)
    (h : cid ∉ rt.definition.currencies.map (fun c => c.id)) :
    dictGet (recompute_rates rt).state.currencies cid =
      dictGet rt.state.currencies cid := by
  unfold recompute_rates
  dsimp only
  exact foldl_rate_write_not_mem rt.definition.currencies
    (fun cdef => cdef.id)
    (fun s cdef => compute_rate rt.customPipelines cdef.id
      (((dictGet (collect_active_effects rt.definition rt.state).2
          cdef.id).getD []) ++
        (collect_active_effects rt.definition rt.state).1) s)
    rt.state cid h

/-- The core of the (partial) GreedyROI round-trip for currencies: after the
refund of exactly what was deducted and the restoration of the saved rates,
every currency record is back to its original value. -/
theorem restore_currencies (d : GameDefinition) (cost : List (String × Rat))
    (s0 sA : GameState) (cid : String)
    (hnd : (d.currencies.map (fun c => c.id)).Nodup)
    (hpair : ∀ c2, (dictGet sA.currencies c2).map
        (fun c => (c.current, c.total_earned)) =
      (dictGet s0.currencies c2).map
        (fun c => (c.current - sumFor cost c2, c.total_earned)))
    (hrate : ∀ c2, c2 ∉ d.currencies.map (fun c => c.id) →
      dictGet sA.currencies c2 = (dictGet s0.currencies c2).map
        (fun c => { c with current := c.current - sumFor cost c2 })) :
    dictGet ((d.currencies.map (fun cdef =>
        (cdef.id, s0.currency_rate cdef.id))).foldl
      (fun s p => s.updateCurrency p.1 (fun cs =>
        { cs with current_rate := p.2 }))
      (cost.foldl (fun s p => s.updateCurrency p.1 (fun cs =>
        { cs with current := cs.current + p.2 })) sA)).currencies cid =
      dictGet s0.currencies cid := by
  by_cases hc : cid ∈ d.currencies.map (fun c => c.id)
  · rcases List.mem_map.mp hc with ⟨cdef, hcd, hcid⟩
    have hmemp : (cid, s0.currency_rate cid) ∈ d.currencies.map (fun cdef =>
        (cdef.id, s0.currency_rate cdef.id)) :=
      List.mem_map.mpr ⟨cdef, hcd, by rw [hcid]⟩
    have hnd2 : ((d.currencies.map (fun cdef =>
        (cdef.id, s0.currency_rate cdef.id))).map
          (fun p => p.1)).Nodup := by
      rw [List.map_map]
      exact hnd
    rw [foldl_set_rate_mem _ _ cid _ hnd2 hmemp, foldl_refund_currencies]
    have hp := hpair cid
    cases h0 : dictGet s0.currencies cid with
    | none =>
      rw [h0, Option.map_none'] at hp
      have hA : dictGet sA.currencies cid = none := by
        cases hA2 : dictGet sA.currencies cid with
        | none => rfl
        | some v =>
          rw [hA2, Option.map_some'] at hp
          cases hp
      rw [hA]
      rfl
    | some cs =>
      rw [h0, Option.map_some'] at hp
      cases hA : dictGet sA.currencies cid with
      | none =>
        rw [hA, Option.map_none'] at hp
        cases hp
      | some v =>
        rw [hA, Option.map_some'] at hp
        have hv := Option.some.inj hp
        have hv1 : v.current = cs.current - sumFor cost cid :=
          congrArg Prod.fst hv
        have hv2 : v.total_earned = cs.total_earned :=
          congrArg Prod.snd hv
        have hrr : s0.currency_rate cid = cs.current_rate := by
          unfold GameState.currency_rate
          rw [h0]
        simp only [Option.map_some']
        show some (⟨v.current + sumFor cost cid, v.total_earned,
          s0.currency_rate cid⟩ : CurrencyState) = some cs
        rw [hv1, hv2, hrr]
        have harith : cs.current - sumFor cost cid + sumFor cost cid =
            cs.current := by ring
        rw [harith]
  · have hnotk : cid ∉ (d.currencies.map (fun cdef =>
        (cdef.id, s0.currency_rate cdef.id))).map (fun p => p.1) := by
      rw [List.map_map]
      exact hc
    rw [foldl_set_rate_not_mem _ _ cid hnotk, foldl_refund_currencies,
        hrate cid hc]
    cases h0 : dictGet s0.currencies cid with
    | none => rfl
    | some cs =>
      simp only [Option.map_some']
      show some (⟨cs.current - sumFor cost cid + sumFor cost cid,
        cs.total_earned, cs.current_rate⟩ : CurrencyState) = some cs
      have harith : cs.current - sumFor cost cid + sumFor cost cid =
          cs.current := by ring
      rw [harith]

/-- C4 (amended): the GreedyROI speculative purchase-then-undo round-trip
restores every currency record exactly (balance via refund of the identical
cost list, total_earned untouched, rate via the saved-rate restoration),
every element count and sticky-unlock flag, and the clock, milestone map,
prestige counters and run number — stated for a successful candidate whose
element has no IMMEDIATE-phase effects and no purchase callback, in a game
with no COST_MULT effects and duplicate-free currency ids.  It is NOT an
exact state round-trip: the `available`/`affordable` flags are refreshed
from the post-purchase state and may remain stale (see the
counterexample). -/
theorem greedy_roi_probe_restores (rt : Runtime) (pid : String)
    (edef : ElementDef) (es : ElementState)
    (hget : rt.definition.get_element pid = some edef)
    (hes : dictGet rt.state.elements pid = some es)
    (hsucc : (try_purchase rt pid).1 = true)
    (hel : NoElementCallbacks rt.definition)
    (hnoimm : ∀ eff ∈ edef.effects, eff.phase ≠ EffectPhase.IMMEDIATE)
    (hnocost : ∀ e ∈ rt.definition.elements, ∀ eff ∈ e.effects,
      eff.type ≠ EffectType.COST_MULT)
    (hnd : (rt.definition.currencies.map (fun c => c.id)).Nodup) :
    (∀ cid, dictGet (greedy_roi_probe rt pid).state.currencies cid =
      dictGet rt.state.currencies cid) ∧
    (∀ eid2, (dictGet (greedy_roi_probe rt pid).state.elements eid2).map
        (fun e => (e.count, e.unlocked)) =
      (dictGet rt.state.elements eid2).map
        (fun e => (e.count, e.unlocked))) ∧
    metaOf (greedy_roi_probe rt pid).state = metaOf rt.state := by
  have hcb : edef.on_purchase = none := hel edef (get_element_mem _ _ _ hget)
  have hpss : purchase_success_state rt pid edef es =
      update_element_statuses rt.definition
        (((edef.cost_scaling.compute edef.base_cost es.count).foldl
          (fun s p => s.updateCurrency p.1 (fun cs =>
            { cs with current := cs.current - p.2 })) rt.state).updateElement
          pid (fun e => { e with count := e.count + 1 })) := by
    unfold purchase_success_state
    dsimp only
    rw [apply_cost_effects_noop rt.definition rt.state pid _ hnocost,
        foldl_immediate_noop _ _ hnoimm, hcb]
  have hw : ∃ w, dictGet (recompute_rates { rt with
      state := purchase_success_state rt pid edef es,
      dirty := true }).state.elements pid = some w ∧
      w.count = es.count + 1 ∧ w.unlocked = es.unlocked := by
    have hpair : (dictGet (recompute_rates { rt with
        state := purchase_success_state rt pid edef es,
        dirty := true }).state.elements pid).map
        (fun e => (e.count, e.unlocked)) = some (es.count + 1, es.unlocked)
        := by
      rw [recompute_rates_elements]
      dsimp only
      rw [hpss, update_element_statuses_count_unlocked]
      simp only [updateElement_elements]
      rw [dictGet_updateKey, if_pos rfl, deduct_elements, hes]
      rfl
    cases hg : dictGet (recompute_rates { rt with
        state := purchase_success_state rt pid edef es,
        dirty := true }).state.elements pid with
    | none =>
      rw [hg] at hpair
      cases hpair
    | some w =>
      rw [hg, Option.map_some'] at hpair
      have hinj := Option.some.inj hpair
      exact ⟨w, rfl, congrArg Prod.fst hinj, congrArg Prod.snd hinj⟩
  obtain ⟨w, hw1, hw2, hw3⟩ := hw
  have hcount : ((recompute_rates { rt with
      state := purchase_success_state rt pid edef es,
      dirty := true }).state.updateElement pid
      (fun es => { es with count := es.count - 1 })).element_count pid =
      es.count := by
    unfold GameState.element_count
    simp only [updateElement_elements, dictGet_updateKey]
    rw [if_pos trivial, hw1]
    show w.count - 1 = es.count
    rw [hw2]
    omega
  have hstate : (greedy_roi_probe rt pid).state =
      (rt.definition.currencies.map (fun cdef =>
        (cdef.id, rt.state.currency_rate cdef.id))).foldl
        (fun s p => s.updateCurrency p.1 (fun cs =>
          { cs with current_rate := p.2 }))
        ((edef.cost_scaling.compute edef.base_cost es.count).foldl
          (fun s p => s.updateCurrency p.1 (fun cs =>
            { cs with current := cs.current + p.2 }))
          ((recompute_rates { rt with
              state := purchase_success_state rt pid edef es,
              dirty := true }).state.updateElement pid
            (fun es => { es with count := es.count - 1 }))) := by
    unfold greedy_roi_probe
    rw [try_purchase_succ_eq rt pid edef es hget hes hsucc]
    dsimp only
    rw [(recompute_rates_frame { rt with
        state := purchase_success_state rt pid edef es,
        dirty := true }).1]
    dsimp only
    rw [hget]
    dsimp only
    rw [apply_cost_effects_noop rt.definition _ pid _ hnocost, hcount]
  refine ⟨?_, ?_, ?_⟩
  · intro cid
    rw [hstate]
    refine restore_currencies rt.definition
      (edef.cost_scaling.compute edef.base_cost es.count) rt.state _ cid hnd
      ?_ ?_
    · intro c2
      simp only [updateElement_currencies]
      rw [(recompute_rates_frame { rt with
          state := purchase_success_state rt pid edef es,
          dirty := true }).2.2.2 c2]
      dsimp only
      rw [hpss, ues_currencies]
      simp only [updateElement_currencies]
      rw [foldl_deduct_currencies]
      cases dictGet rt.state.currencies c2 <;> rfl
    · intro c2 hc2
      simp only [updateElement_currencies]
      rw [recompute_rates_not_mem { rt with
          state := purchase_success_state rt pid edef es,
          dirty := true } c2 hc2]
      dsimp only
      rw [hpss, ues_currencies]
      simp only [updateElement_currencies]
      rw [foldl_deduct_currencies]
  · intro eid2
    rw [hstate, set_rate_elements, refund_elements]
    simp only [updateElement_elements]
    by_cases hpe : eid2 = pid
    · subst hpe
      rw [dictGet_updateKey, if_pos rfl, hw1, hes]
      simp only [Option.map_some']
      show some (w.count - 1, w.unlocked) = some (es.count, es.unlocked)
      rw [hw2, hw3]
      have harith : es.count + 1 - 1 = es.count := by omega
      rw [harith]
    · rw [dictGet_updateKey, if_neg hpe, recompute_rates_elements]
      dsimp only
      rw [hpss, update_element_statuses_count_unlocked]
      simp only [updateElement_elements]
      rw [dictGet_updateKey, if_neg hpe, deduct_elements]
  · rw [hstate,
        metaOf_of_nonCurrency (foldl_set_rate_frame _ _),
        metaOf_of_nonCurrency (foldl_refund_frame _ _),
        metaOf_updateElement,
        metaOf_of_nonCurrency (recompute_rates_frame { rt with
          state := purchase_success_state rt pid edef es,
          dirty := true }).2.2.1]
    dsimp only
    rw [hpss,
        metaOf_of_nonElements (update_element_statuses_frame _ _),
        metaOf_updateElement,
        metaOf_of_nonCurrency (foldl_deduct_frame _ _)]

/-- Witness for the amended C4 at `rtW1`: probing `"miner"` (cost 5 gold
of 10) leaves gold's record, miner's count/unlocked pair and the run
metadata exactly as before the probe. -/
theorem greedy_roi_probe_restores_witness :
    dictGet (greedy_roi_probe rtW1 "miner").state.currencies "gold" =
      dictGet rtW1.state.currencies "gold" ∧
    (dictGet (greedy_roi_probe rtW1 "miner").state.elements "miner").map
        (fun e => (e.count, e.unlocked)) =
      (dictGet rtW1.state.elements "miner").map
        (fun e => (e.count, e.unlocked)) ∧
    metaOf (greedy_roi_probe rtW1 "miner").state = metaOf rtW1.state := by
  have h := greedy_roi_probe_restores rtW1 "miner"
    { id := "miner", base_cost := [("gold", 5)] }
    { count := 0, available := true, affordable := true, unlocked := false }
    rfl rfl rfl
    (by
      intro e he
      cases he with
      | head => rfl
      | tail _ h2 => cases h2)
    (by simp)
    (by
      intro e he
      cases he with
      | head =>
        intro eff heff
        cases heff
      | tail _ h2 => cases h2)
    (by decide)
  exact ⟨h.1 "gold", h.2.1 "miner", h.2.2⟩

end IdleEngine
